import Mathlib

/-
  Formal model of the batch job processing engine of easy-crawl4ai.

  The repository contains two parallel implementations of the engine:
  - `src/main.py` (Flask web UI, routes `create_batch`, `start_batch`,
    `pause_batch`, `retry_item`, `retry_failed_urls`, worker `process_batch_job`);
  - `src/easy_crawl4ai/crossplatform/web_app.py` (the cross-platform variant,
    same route names, its own `process_batch_job`).
  Both share the data model of `src/models.py` (`BatchJob`, `BatchJobItem`,
  `CrawlResult`).

  Embedding choices:
  - timestamps are a logical clock (`Nat`); `datetime.utcnow()` becomes the
    current clock value;
  - the `batch_job_items` table of one batch is a `List BatchJobItem` in
    insertion (primary-key) order; an item is identified by its position in
    that list, which is also the order `create_batch` inserts the URLs in;
  - SQL counters (Python ints) are `Int`;
  - a query with no ORDER BY (`main.py:1100-1104`) returns rows in the
    insertion order of the store, i.e. the list order of the model;
  - the external crawler (`crawl4ai`) is the environment: each crawl either
    succeeds, fails with an exception message, or succeeds but the result
    save raises (`Outcome` below).
-/

namespace EasyCrawl

/-- Models `models.py:122` BatchJob.status: pending, running, completed, failed, paused. -/
inductive BatchStatus
  | pending
  | running
  | paused
  | completed
  | failed
deriving DecidableEq, Repr

/-- Models `models.py:183` BatchJobItem.status. The schema comment also lists
"skipped", but no code in the repository ever assigns it, so it is omitted. -/
inductive ItemStatus
  | pending
  | processing
  | completed
  | failed
deriving DecidableEq, Repr

/-- Models `models.py:104-170` BatchJob, restricted to the fields the engine and the
claims touch. `concurrent_workers` is parsed from the create form with
`int(...)` and no lower bound (`main.py:771`), hence an arbitrary `Nat`. -/
structure BatchJob where
  status : BatchStatus
  concurrentWorkers : Nat
  totalUrls : Int
  processedUrls : Int
  successfulUrls : Int
  failedUrls : Int
  startedAt : Option Nat
  completedAt : Option Nat
  errorMessage : Option String
deriving DecidableEq, Repr

/-- Models `models.py:173-212` BatchJobItem (the owning batch id is implicit: the
model tracks one batch and its item list). -/
structure BatchJobItem where
  url : String
  priority : Int
  status : ItemStatus
  resultId : Option Nat
  errorMessage : Option String
  createdAt : Nat
  startedAt : Option Nat
  completedAt : Option Nat
deriving DecidableEq, Repr

/-- Python `int()` on an exact rational value: truncation toward zero. -/
def pyInt (q : ℚ) : Int := if q < 0 then ⌈q⌉ else ⌊q⌋

/-- Models `models.py:162-166` BatchJob.progress_percentage:
`if self.total_urls <= 0: return 0` then
`int((self.processed_urls / self.total_urls) * 100)`, with Python division
modeled as exact rational division. -/
def progress_percentage (b : BatchJob) : Int :=
  if b.totalUrls ≤ 0 then 0
  else pyInt (((b.processedUrls : ℚ) / (b.totalUrls : ℚ)) * 100)

/-- Number of items of one batch in a given status
(`BatchJobItem.query.filter_by(batch_job_id=..., status=...).count()`). -/
def countStatus (items : List BatchJobItem) (st : ItemStatus) : Nat :=
  items.countP fun it => it.status == st

/-- Update-in-place of the row at position `n` (ORM attribute writes followed
by a commit). Rows other than `n` are untouched; an out-of-range `n` changes
nothing. -/
def updateAt (items : List BatchJobItem) (n : Nat) (f : BatchJobItem → BatchJobItem) :
    List BatchJobItem :=
  match items[n]? with
  | some it => items.set n (f it)
  | none => items

/-- The query `filter_by(status="pending")`: the pending rows, each with its position,
in insertion order. -/
def pendingPairs (items : List BatchJobItem) : List (Nat × BatchJobItem) :=
  items.enum.filter fun p => p.2.status == ItemStatus.pending

/-- The ORDER BY of `web_app.py:1314-1315`:
`BatchJobItem.priority.desc(), BatchJobItem.created_at` — higher priority
first, earlier creation first among equal priorities. -/
def orderByPriorityCreated (a b : BatchJobItem) : Prop :=
  b.priority < a.priority ∨ (a.priority = b.priority ∧ a.createdAt ≤ b.createdAt)

instance : DecidableRel orderByPriorityCreated := fun a b => by
  unfold orderByPriorityCreated; infer_instance

instance : IsTotal BatchJobItem orderByPriorityCreated where
  total a b := by
    unfold orderByPriorityCreated
    rcases lt_trichotomy a.priority b.priority with h | h | h
    · exact Or.inr (Or.inl h)
    · rcases Nat.le_total a.createdAt b.createdAt with h2 | h2
      · exact Or.inl (Or.inr ⟨h, h2⟩)
      · exact Or.inr (Or.inr ⟨h.symm, h2⟩)
    · exact Or.inl (Or.inl h)

instance : IsTrans BatchJobItem orderByPriorityCreated where
  trans a b c hab hbc := by
    unfold orderByPriorityCreated at *
    rcases hab with h1 | ⟨h1, h1c⟩ <;> rcases hbc with h2 | ⟨h2, h2c⟩
    · exact Or.inl (h2.trans h1)
    · exact Or.inl (h2 ▸ h1)
    · exact Or.inl (h1.symm ▸ h2)
    · exact Or.inr ⟨h1.trans h2, h1c.trans h2c⟩

/-- The same order on (position, row) pairs, comparing the rows. -/
def pairOrder (p q : Nat × BatchJobItem) : Prop :=
  orderByPriorityCreated p.2 q.2

instance : DecidableRel pairOrder := fun p q => by
  unfold pairOrder; infer_instance

instance : IsTotal (Nat × BatchJobItem) pairOrder where
  total p q := IsTotal.total (r := orderByPriorityCreated) p.2 q.2

instance : IsTrans (Nat × BatchJobItem) pairOrder where
  trans p q r hpq hqr := IsTrans.trans (r := orderByPriorityCreated) p.2 q.2 r.2 hpq hqr

/-- From `main.py:1100-1104`: claim query of the main engine —
`filter_by(status="pending").limit(k)` with NO order_by clause: the first `k`
pending rows in store order. (`k` is `concurrent_limit - active_workers`,
where `active_workers` is initialized to 0 at `main.py:1087` and never
changed, so `k = concurrent_workers`.) -/
def mainClaimPairs (items : List BatchJobItem) (k : Nat) : List (Nat × BatchJobItem) :=
  (pendingPairs items).take k

/-- From `web_app.py:1311-1316`: claim query of the cross-platform engine —
`filter_by(status="pending").order_by(priority.desc(), created_at).limit(k)`. -/
def webClaimPairs (items : List BatchJobItem) (k : Nat) : List (Nat × BatchJobItem) :=
  ((pendingPairs items).insertionSort pairOrder).take k

/-- Positions claimed by the main engine in one round. -/
def mainClaimIdx (items : List BatchJobItem) (k : Nat) : List Nat :=
  (mainClaimPairs items k).map Prod.fst

/-- Positions claimed by the cross-platform engine in one round. -/
def webClaimIdx (items : List BatchJobItem) (k : Nat) : List Nat :=
  (webClaimPairs items k).map Prod.fst

/-- Display name of a batch status, used in flash messages. -/
def statusName : BatchStatus → String
  | .pending => "pending"
  | .running => "running"
  | .paused => "paused"
  | .completed => "completed"
  | .failed => "failed"

/-- Route `main.py:882-909` start_batch (identical status logic at
`web_app.py:1011-1038`): reject unless status is pending or paused; otherwise
set status running and set started_at only if it was never set. Returns the
batch after the call and the error flash, if any. -/
def start_batch (b : BatchJob) (now : Nat) : BatchJob × Option String :=
  if b.status = .pending ∨ b.status = .paused then
    ({ b with
        status := .running
        startedAt := if b.startedAt.isSome then b.startedAt else some now }, none)
  else
    (b, some ("Cannot start batch job in " ++ statusName b.status ++ " status"))

/-- Route `main.py:911-929` pause_batch (identical status logic at
`web_app.py:1046-1071`): reject unless running; otherwise set status paused. -/
def pause_batch (b : BatchJob) : BatchJob × Option String :=
  if b.status = .running then
    ({ b with status := .paused }, none)
  else
    (b, some ("Cannot pause batch job in " ++ statusName b.status ++ " status"))

/-- The item reset shared by all four retry handlers (`main.py:965-968`,
`main.py:1002-1005`, `web_app.py:1116-1119`, `web_app.py:1155-1158`):
status back to pending, error message and started/completed timestamps
cleared. None of the four handlers clears `result_id`. -/
def resetItem (it : BatchJobItem) : BatchJobItem :=
  { it with
      status := .pending
      errorMessage := none
      startedAt := none
      completedAt := none }

/-- Route `main.py:951-983` retry_item: only failed items are reset; the
failed_urls and processed_urls of the batch are both decremented by one,
and a completed or failed batch goes back to pending. -/
def retry_item (b : BatchJob) (items : List BatchJobItem) (n : Nat) :
    BatchJob × List BatchJobItem × Option String :=
  match items[n]? with
  | none => (b, items, some "404")
  | some it =>
    if it.status = .failed then
      ({ b with
          failedUrls := b.failedUrls - 1
          processedUrls := b.processedUrls - 1
          status := if b.status = .completed ∨ b.status = .failed then .pending else b.status },
       updateAt items n resetItem, none)
    else
      (b, items, some "Can only retry failed items")

/-- Route `main.py:985-1018` retry_failed_urls: no-op with a flash when there are no
failed items; otherwise resets every failed item, sets failed_urls to 0,
decrements processed_urls by the number of reset items, and moves a
completed or failed batch back to pending. -/
def retry_failed_urls (b : BatchJob) (items : List BatchJobItem) :
    BatchJob × List BatchJobItem × Option String :=
  let failedCount := countStatus items .failed
  if failedCount = 0 then
    (b, items, some "No failed items to retry")
  else
    ({ b with
        failedUrls := 0
        processedUrls := b.processedUrls - (failedCount : Int)
        status := if b.status = .completed ∨ b.status = .failed then .pending else b.status },
     items.map fun it => if it.status = .failed then resetItem it else it, none)

/-- Route `web_app.py:1100-1133` retry_item of the cross-platform variant: resets
the failed item the same way, but the batch update (`web_app.py:1122-1125`)
only decrements failed_urls — processed_urls is left unchanged and the batch
status is never touched. -/
def web_retry_item (b : BatchJob) (items : List BatchJobItem) (n : Nat) :
    BatchJob × List BatchJobItem × Option String :=
  match items[n]? with
  | none => (b, items, some "404")
  | some it =>
    if it.status = .failed then
      ({ b with failedUrls := b.failedUrls - 1 }, updateAt items n resetItem, none)
    else
      (b, items, some "Cannot retry item")

/-- Route `web_app.py:1136-1175` retry_failed_urls of the cross-platform variant:
resets every failed item and zeroes failed_urls, leaves processed_urls
unchanged, and moves the batch from completed to PAUSED
(`web_app.py:1163-1165`); a failed batch keeps its status. -/
def web_retry_failed_urls (b : BatchJob) (items : List BatchJobItem) :
    BatchJob × List BatchJobItem × Option String :=
  let failedCount := countStatus items .failed
  if failedCount = 0 then
    (b, items, some "No failed items to retry")
  else
    ({ b with
        failedUrls := 0
        status := if b.status = .completed then .paused else b.status },
     items.map fun it => if it.status = .failed then resetItem it else it, none)

/-- One item row per URL, in insertion order, all pending
(`main.py:834-844`, `web_app.py:966-977`; the cross-platform route passes
`priority=0` explicitly, the main route leaves the column default 0). -/
def create_batch_items (urls : List String) : List BatchJobItem :=
  urls.enum.map fun p =>
    { url := p.2
      priority := 0
      status := .pending
      resultId := none
      errorMessage := none
      createdAt := p.1
      startedAt := none
      completedAt := none }

/-- Route `main.py:816-832` create_batch: the batch record. With
`schedule_type == "now"` the status is pending, with any other schedule value
the batch is created directly in status PAUSED (`main.py:826`). The route
refuses an empty URL list (`main.py:784-786`). -/
def create_batch (urls : List String) (workers : Nat) (scheduleNow : Bool) : BatchJob :=
  { status := if scheduleNow then .pending else .paused
    concurrentWorkers := workers
    totalUrls := (urls.length : Int)
    processedUrls := 0
    successfulUrls := 0
    failedUrls := 0
    startedAt := none
    completedAt := none
    errorMessage := none }

/-- Route `web_app.py:940-961` create_batch of the cross-platform variant: always
created in status pending. -/
def web_create_batch (urls : List String) (workers : Nat) : BatchJob :=
  { status := .pending
    concurrentWorkers := workers
    totalUrls := (urls.length : Int)
    processedUrls := 0
    successfulUrls := 0
    failedUrls := 0
    startedAt := none
    completedAt := none
    errorMessage := none }

/-! ## The processing loops

Each loop (`process_batch_job`) runs in its own background thread and talks
to the store at commit/refresh boundaries.  The loop is modeled as a small
step function over a program counter; external control actions (start,
pause, the retry routes) can interleave between engine steps.  A start on a
paused batch while a previous loop invocation is still mid-round would
launch a second concurrent loop (`main.py:903-907`); the model covers the
executions with at most one live loop, so the start action is enabled only
when no loop is live.  The engine-fatal paths (missing crawl4ai import,
store errors — `main.py:1066-1073`, `main.py:1210-1220`) abort the loop with
batch status failed and are outside the main-loop step relation; the
cross-platform loop keeps its fatal path for result saving, which sits
outside the per-item try there (`web_app.py:1391`, `web_app.py:1417-1425`). -/

/-- Environment outcome of one crawl invocation: the crawler returns a
result, the crawler raises `e` with `str(e) = msg`, or the crawler succeeds
and then saving the result raises `e` with `str(e) = msg`. -/
inductive Outcome
  | success
  | failure (msg : String)
  | saveError (msg : String)
deriving DecidableEq, Repr

/-- From `main.py:1178-1182`: on a per-item exception the stored message is
`json.dumps(format_error_message(e, include_exception_details=True))`
(`error_handler.py:274-301`): a JSON object whose exception.message field is
`str(e)`.  The classification fields (type/category/message/suggestion) of
`error_handler.get_error_info` are abstracted away; the JSON-object shape is
kept, and it is nonempty even when `str(e)` is empty. -/
def main_item_error_message (excMsg : String) : String :=
  "\x7b\"resolved\": false, \"exception\": \x7b\"message\": \"" ++ excMsg ++ "\"\x7d\x7d"

/-- Sets status completed and stamps completed_at (`main.py:1115-1116`,
`main.py:1196-1197`, `main.py:1205-1206`, `web_app.py:1325-1326`). -/
def completeBatch (b : BatchJob) (t : Nat) : BatchJob :=
  { b with status := .completed, completedAt := some t }

/-- Claim marking: status processing, started_at stamped
(`main.py:1130-1131`, `web_app.py:1340-1341`). -/
def markProcessing (t : Nat) (it : BatchJobItem) : BatchJobItem :=
  { it with status := .processing, startedAt := some t }

/-- Program counter of the main loop `main.py:1083-1208`. -/
inductive MainPC
  /-- About to evaluate the while condition / refresh / claim query
  (`main.py:1091-1125`). -/
  | loopHead
  /-- Inside the for loop over the claimed rows, `queue` still to process
  (`main.py:1128`). -/
  | forItems (queue : List Nat)
  /-- Row `cur` marked processing and committed, about to crawl it
  (`main.py:1134`); `queue` follows. -/
  | crawlItem (cur : Nat) (queue : List Nat)
  /-- After the while loop: the final completion re-check
  (`main.py:1202-1208`). -/
  | finalCheck
  /-- The thread has returned. -/
  | done
deriving DecidableEq, Repr

/-- One batch, its item rows, and the state of the (single) live loop of the
main engine. `totalProcessed` is the loop-local `total_processed` counter
(`main.py:1088`). -/
structure MainSys where
  batch : BatchJob
  items : List BatchJobItem
  clock : Nat
  nextResultId : Nat
  pc : MainPC
  totalProcessed : Nat
deriving DecidableEq, Repr

/-- One engine step of `main.py:process_batch_job` between two store
interactions. The crawl outcome `o` is consumed only at a `crawlItem` point;
a save exception there is caught by the same per-item except block
(`save_result` is called inside the try at `main.py:1146`). -/
def mainEngineStep (s : MainSys) (o : Outcome) : MainSys :=
  match s.pc with
  | .done => s
  | .finalCheck =>
    -- main.py:1202-1208
    if s.batch.totalUrls ≤ s.batch.processedUrls ∧ s.batch.status = .running then
      { s with batch := completeBatch s.batch s.clock, clock := s.clock + 1, pc := .done }
    else
      { s with pc := .done }
  | .loopHead =>
    -- main.py:1091-1098: while condition and the refresh re-check
    if s.batch.status = .running ∧ (s.totalProcessed : Int) < s.batch.totalUrls then
      -- main.py:1100-1104: claim query (no order_by)
      let claimed := mainClaimIdx s.items s.batch.concurrentWorkers
      if claimed.isEmpty then
        -- main.py:1106-1125
        if countStatus s.items .processing = 0 then
          { s with batch := completeBatch s.batch s.clock, clock := s.clock + 1, pc := .finalCheck }
        else
          { s with clock := s.clock + 1 }  -- time.sleep(5); continue
      else
        { s with pc := .forItems claimed }
    else
      { s with pc := .finalCheck }
  | .forItems [] =>
    -- main.py:1193-1200: post-round completion check
    if s.batch.totalUrls ≤ s.batch.processedUrls then
      { s with batch := completeBatch s.batch s.clock, clock := s.clock + 1, pc := .finalCheck }
    else
      { s with pc := .loopHead }
  | .forItems (i :: queue) =>
    -- main.py:1128-1132: mark processing, stamp started_at, commit
    { s with
        items := updateAt s.items i (markProcessing s.clock)
        clock := s.clock + 1
        pc := .crawlItem i queue }
  | .crawlItem i queue =>
    match o with
    | .success =>
      -- main.py:1138-1172: crawl, save, CrawlResult row, item completed,
      -- counters, commit
      { s with
          items := updateAt s.items i fun it =>
            { it with
                status := .completed
                resultId := some s.nextResultId
                completedAt := some s.clock }
          batch := { s.batch with
              processedUrls := s.batch.processedUrls + 1
              successfulUrls := s.batch.successfulUrls + 1 }
          nextResultId := s.nextResultId + 1
          clock := s.clock + 1
          totalProcessed := s.totalProcessed + 1
          pc := .forItems queue }
    | .failure msg | .saveError msg =>
      -- main.py:1174-1191: per-item except block
      { s with
          items := updateAt s.items i fun it =>
            { it with
                status := .failed
                errorMessage := some (main_item_error_message msg)
                completedAt := some s.clock }
          batch := { s.batch with
              processedUrls := s.batch.processedUrls + 1
              failedUrls := s.batch.failedUrls + 1 }
          clock := s.clock + 1
          totalProcessed := s.totalProcessed + 1
          pc := .forItems queue }

/-- External actions on one batch: an engine step (with its crawl outcome
chosen by the environment), and the four control routes. -/
inductive Act
  | engine (o : Outcome)
  | start
  | pause
  | retryItem (n : Nat)
  | retryFailed
deriving DecidableEq, Repr

/-- One transition of the main system. The start route re-launches the loop
(`main.py:903-907`); it is enabled only when no loop is live (see above). -/
def mainStep (s : MainSys) : Act → MainSys
  | .engine o => mainEngineStep s o
  | .start =>
    if s.pc = .done then
      match start_batch s.batch s.clock with
      | (b2, none) =>
        { s with batch := b2, clock := s.clock + 1, pc := .loopHead, totalProcessed := 0 }
      | (b2, some _) => { s with batch := b2 }
    else s
  | .pause => { s with batch := (pause_batch s.batch).1 }
  | .retryItem n =>
    let r := retry_item s.batch s.items n
    { s with batch := r.1, items := r.2.1 }
  | .retryFailed =>
    let r := retry_failed_urls s.batch s.items
    { s with batch := r.1, items := r.2.1 }

/-- Run the main system over a list of interleaved actions. -/
def mainRun (s : MainSys) (acts : List Act) : MainSys :=
  acts.foldl mainStep s

/-- The system right after the main create_batch route. -/
def mainCreateSys (urls : List String) (workers : Nat) (scheduleNow : Bool) : MainSys :=
  { batch := create_batch urls workers scheduleNow
    items := create_batch_items urls
    clock := urls.length
    nextResultId := 0
    pc := .done
    totalProcessed := 0 }

/-- States of the main system reachable from a created batch (the route
refuses an empty URL list, `main.py:784-786`). -/
def MainReachable (s : MainSys) : Prop :=
  ∃ urls workers scheduleNow acts,
    urls ≠ [] ∧ s = mainRun (mainCreateSys urls workers scheduleNow) acts

/-- Program counter of the cross-platform loop `web_app.py:1302-1415`. -/
inductive WebPC
  /-- About to re-read the batch and run the claim query
  (`web_app.py:1303-1343`). -/
  | loopHead
  /-- Inside the for loop over the claimed rows, all already marked
  processing; `queue` still to crawl (`web_app.py:1346`). -/
  | procItems (queue : List Nat)
  /-- The thread has returned. -/
  | done
deriving DecidableEq, Repr

/-- One batch, its item rows, and the state of the (single) live loop of the
cross-platform engine. -/
structure WebSys where
  batch : BatchJob
  items : List BatchJobItem
  clock : Nat
  nextResultId : Nat
  pc : WebPC
deriving DecidableEq, Repr

/-- Marks every claimed row processing in one commit
(`web_app.py:1338-1343`). -/
def markAll (t : Nat) (idxs : List Nat) (items : List BatchJobItem) : List BatchJobItem :=
  idxs.foldl (fun acc n => updateAt acc n (markProcessing t)) items

/-- One engine step of `web_app.py:process_batch_job`. Differences from the
main loop that the claims exercise: the claim query is ordered
(priority desc, created_at asc); a whole round is marked processing in one
commit; the batch status is re-checked before EVERY item and the round is
abandoned mid-way if it is no longer running (`web_app.py:1346-1352`),
leaving the uncrawled claimed rows in status processing; `save_result` is
called outside the per-item try (`web_app.py:1391`), so a save exception
escapes to the outer handler and fails the whole batch
(`web_app.py:1417-1425`); there is no `total_processed` bound and no final
completion re-check. -/
def webEngineStep (s : WebSys) (o : Outcome) : WebSys :=
  match s.pc with
  | .done => s
  | .loopHead =>
    -- web_app.py:1303-1309
    if s.batch.status = .running then
      -- web_app.py:1311-1316: ordered claim query
      let claimed := webClaimIdx s.items s.batch.concurrentWorkers
      if claimed.isEmpty then
        -- web_app.py:1318-1336: completion needs BOTH counts zero; otherwise
        -- the loop sleeps and re-polls (either the processing wait at
        -- 1332-1336 or the empty round falling through to the sleep at 1415)
        if countStatus s.items .pending = 0 ∧ countStatus s.items .processing = 0 then
          { s with batch := completeBatch s.batch s.clock, clock := s.clock + 1, pc := .done }
        else
          { s with clock := s.clock + 1 }  -- time.sleep; continue
      else
        { s with
            items := markAll s.clock claimed s.items
            clock := s.clock + 1
            pc := .procItems claimed }
    else
      { s with pc := .done }
  | .procItems [] => { s with pc := .loopHead }  -- time.sleep(1); next round
  | .procItems (i :: queue) =>
    -- web_app.py:1346-1352: per-item status re-check; inner break leaves the
    -- rest of the round in status processing
    if s.batch.status = .running then
      match o with
      | .success =>
        -- web_app.py:1386-1400, 1411-1412
        { s with
            items := updateAt s.items i fun it =>
              { it with
                  status := .completed
                  resultId := some s.nextResultId
                  completedAt := some s.clock }
            batch := { s.batch with
                processedUrls := s.batch.processedUrls + 1
                successfulUrls := s.batch.successfulUrls + 1 }
            nextResultId := s.nextResultId + 1
            clock := s.clock + 1
            pc := .procItems queue }
      | .saveError msg =>
        -- web_app.py:1391 raises outside the try; outer handler
        -- web_app.py:1417-1425 fails the whole batch and the thread returns
        { s with
            batch := { s.batch with status := .failed, errorMessage := some msg }
            clock := s.clock + 1
            pc := .done }
      | .failure msg =>
        -- web_app.py:1381-1383, 1402-1412: error_message = str(e)
        { s with
            items := updateAt s.items i fun it =>
              { it with
                  status := .failed
                  errorMessage := some msg
                  completedAt := some s.clock }
            batch := { s.batch with
                processedUrls := s.batch.processedUrls + 1
                failedUrls := s.batch.failedUrls + 1 }
            clock := s.clock + 1
            pc := .procItems queue }
    else
      { s with pc := .loopHead }

/-- One transition of the cross-platform system; the control routes use the
same start/pause logic and the retry handlers of the variant. -/
def webStep (s : WebSys) : Act → WebSys
  | .engine o => webEngineStep s o
  | .start =>
    if s.pc = .done then
      match start_batch s.batch s.clock with
      | (b2, none) => { s with batch := b2, clock := s.clock + 1, pc := .loopHead }
      | (b2, some _) => { s with batch := b2 }
    else s
  | .pause => { s with batch := (pause_batch s.batch).1 }
  | .retryItem n =>
    let r := web_retry_item s.batch s.items n
    { s with batch := r.1, items := r.2.1 }
  | .retryFailed =>
    let r := web_retry_failed_urls s.batch s.items
    { s with batch := r.1, items := r.2.1 }

/-- Run the cross-platform system over a list of interleaved actions. -/
def webRun (s : WebSys) (acts : List Act) : WebSys :=
  acts.foldl webStep s

/-- The system right after the cross-platform create_batch route. -/
def webCreateSys (urls : List String) (workers : Nat) : WebSys :=
  { batch := web_create_batch urls workers
    items := create_batch_items urls
    clock := urls.length
    nextResultId := 0
    pc := .done }

/-! ## Concrete stores and traces used to settle the claims -/

/-- A pending item with a given priority and creation time. -/
def prioItem (p : Int) (c : Nat) : BatchJobItem :=
  { url := "https://example.com"
    priority := p
    status := .pending
    resultId := none
    errorMessage := none
    createdAt := c
    startedAt := none
    completedAt := none }

/-- The item store of the claim-order example of the spec: priorities [5, 1, 5, 3]
in creation order 0, 1, 2, 3. -/
def prioStore : List BatchJobItem :=
  [prioItem 5 0, prioItem 1 1, prioItem 5 2, prioItem 3 3]

/-- Cross-platform batch of one URL whose single crawl fails, run to
completion: batch completed with processed_urls = 1, failed_urls = 1, item 0
failed. -/
def webFailedBatch : WebSys :=
  webRun (webCreateSys ["https://a.example"] 1)
    [.start, .engine .success, .engine (.failure "boom"), .engine .success, .engine .success]

/-- Cross-platform batch of 5 URLs, workers 2: one claim round marks items
0 and 1 processing, then pause arrives before their crawls. -/
def webPauseTrace : WebSys :=
  webRun (webCreateSys ["a", "b", "c", "d", "e"] 2)
    [.start, .engine .success, .pause, .engine .success, .engine .success]

/-- Cross-platform batch of one URL whose crawl succeeds but whose result
save raises. -/
def webSaveErrorTrace : WebSys :=
  webRun (webCreateSys ["https://a.example"] 1)
    [.start, .engine .success, .engine (.saveError "disk full")]

/-- Cross-platform batch of 4 URLs, workers 2: a round of 2 is claimed and
abandoned by a pause, then the batch is restarted and a fresh round of 2 is
claimed on top of the 2 rows still in status processing. -/
def webOverclaimTrace : WebSys :=
  webRun (webCreateSys ["a", "b", "c", "d"] 2)
    [.start, .engine .success, .pause, .engine .success, .engine .success, .start,
     .engine .success]

/-- Main batch of 2 URLs, workers 1, where the first crawl raises and the
second succeeds, with the loop run until the thread returns. -/
def mainMixedTrace : MainSys :=
  mainRun (mainCreateSys ["https://a.example", "https://b.example"] 1 true)
    [.start, .engine .success, .engine .success, .engine (.failure "timeout"),
     .engine .success, .engine .success, .engine .success, .engine .success,
     .engine .success]

/-- Main batch created with concurrent_workers = 0 (nothing stops the create
form from posting 0, `main.py:771`), started, after one loop iteration. -/
def mainZeroWorkersTrace : MainSys :=
  mainRun (mainCreateSys ["https://a.example"] 0 true) [.start, .engine .success]

/-- Main batch of 2 URLs, workers 2: a round [0, 1] is claimed, row 0 is
marked processing, then pause arrives while its crawl is in flight. -/
def mainPausedMidRound : MainSys :=
  mainRun (mainCreateSys ["https://a.example", "https://b.example"] 2 true)
    [.start, .engine .success, .engine .success, .pause]

/-! ## The invariants of the main system

The database is the single shared resource; the predicates below are exactly
the consistency facts the main engine and the control routes maintain
between commits. -/

/-- What the loop position says about the claimed round: the indices of the round
are distinct positions of pending rows (the current crawl target already
marked processing), and a nonempty round implies concurrent_workers ≥ 1
(the claim query returned at most concurrent_workers rows). -/
def MainRound (s : MainSys) : Prop :=
  match s.pc with
  | .forItems q =>
      q.Nodup ∧ (q ≠ [] → 1 ≤ s.batch.concurrentWorkers)
      ∧ ∀ n ∈ q, ∃ h : n < s.items.length, s.items[n].status = .pending
  | .crawlItem i q =>
      (i :: q).Nodup ∧ 1 ≤ s.batch.concurrentWorkers
      ∧ (∃ h : i < s.items.length, s.items[i].status = .processing)
      ∧ ∀ n ∈ q, ∃ h : n < s.items.length, s.items[n].status = .pending
  | _ => True

/-- Consistency of the main system between two store interactions. -/
structure MainInv (s : MainSys) : Prop where
  total_eq : s.batch.totalUrls = (s.items.length : Int)
  processed_eq : s.batch.processedUrls
      = (countStatus s.items .completed : Int) + (countStatus s.items .failed : Int)
  successful_eq : s.batch.successfulUrls = (countStatus s.items .completed : Int)
  failed_eq : s.batch.failedUrls = (countStatus s.items .failed : Int)
  result_none : ∀ n (h : n < s.items.length),
      s.items[n].status ≠ .completed → s.items[n].resultId = none
  round_ok : MainRound s
  proc_only : ∀ n (h : n < s.items.length),
      s.items[n].status = .processing → ∃ q, s.pc = .crawlItem n q
  completed_pc : s.batch.status = .completed → s.pc = .finalCheck ∨ s.pc = .done

/-- The completion guarantee, provable for batches whose concurrent_workers
is at least 1 (a workers = 0 batch is completed prematurely, see the C7
counterexample). -/
def CompletedOK (s : MainSys) : Prop :=
  s.batch.status = .completed →
    s.batch.processedUrls = s.batch.totalUrls ∧ s.batch.completedAt.isSome

/-- Reachable states of main batches created with concurrent_workers ≥ 1. -/
def MainReachableW (s : MainSys) : Prop :=
  ∃ urls workers scheduleNow acts,
    urls ≠ [] ∧ 1 ≤ workers ∧ s = mainRun (mainCreateSys urls workers scheduleNow) acts

/-- The loop running with no interleaved control actions. -/
def engineOnly (s : MainSys) (os : List Outcome) : MainSys :=
  os.foldl mainEngineStep s

/-! ## Helper lemmas about the store model -/

@[simp]
theorem length_updateAt (items : List BatchJobItem) (n : Nat) (f : BatchJobItem → BatchJobItem) :
    (updateAt items n f).length = items.length := by
  unfold updateAt
  cases h : items[n]? <;> simp

theorem getElem_updateAt (items : List BatchJobItem) (n : Nat) (f : BatchJobItem → BatchJobItem)
    (m : Nat) (hn : n < items.length) (hm : m < items.length) :
    (updateAt items n f).get ⟨m, by simpa using hm⟩
      = if n = m then f (items.get ⟨n, hn⟩) else items.get ⟨m, hm⟩ := by
  have hsome : items[n]? = some items[n] := List.getElem?_eq_getElem hn
  unfold updateAt
  simp only [hsome, List.get_eq_getElem, List.getElem_set]

theorem countStatus_updateAt (items : List BatchJobItem) (n : Nat)
    (f : BatchJobItem → BatchJobItem) (st : ItemStatus) (h : n < items.length) :
    countStatus (updateAt items n f) st
      = countStatus items st - (if items[n].status = st then 1 else 0)
        + (if (f items[n]).status = st then 1 else 0) := by
  unfold updateAt
  rw [List.getElem?_eq_getElem h]
  unfold countStatus
  rw [List.countP_set _ _ _ _ h]
  simp only [beq_iff_eq]

theorem countStatus_eq_zero (items : List BatchJobItem) (st : ItemStatus) :
    countStatus items st = 0 ↔ ∀ it ∈ items, it.status ≠ st := by
  unfold countStatus
  rw [List.countP_eq_zero]
  simp

theorem one_le_countStatus (items : List BatchJobItem) (st : ItemStatus) (n : Nat)
    (h : n < items.length) (hst : items[n].status = st) :
    1 ≤ countStatus items st := by
  unfold countStatus
  rw [Nat.succ_le, List.countP_pos_iff]
  exact ⟨items[n], List.getElem_mem h, by simp [hst]⟩

theorem countStatus_sum (items : List BatchJobItem) :
    countStatus items .pending + countStatus items .processing
      + countStatus items .completed + countStatus items .failed = items.length := by
  induction items with
  | nil => rfl
  | cons a t ih =>
    unfold countStatus at *
    rw [List.countP_cons, List.countP_cons, List.countP_cons, List.countP_cons]
    cases h : a.status <;> simp [h] <;> omega

theorem countP_le_one_of_unique {α : Type} (p : α → Bool) (l : List α)
    (h : ∀ n (hn : n < l.length) m (hm : m < l.length),
      p l[n] = true → p l[m] = true → n = m) :
    l.countP p ≤ 1 := by
  induction l with
  | nil => simp
  | cons a t ih =>
    rw [List.countP_cons]
    by_cases hpa : p a = true
    · have ht : t.countP p = 0 := by
        rw [List.countP_eq_zero]
        intro x hx hpx
        obtain ⟨m, hm, hxm⟩ := List.mem_iff_getElem.1 hx
        have h0 := h 0 (by simp) (m + 1) (by simpa using Nat.succ_lt_succ hm)
          (by simpa using hpa) (by simpa [hxm] using hpx)
        omega
      simp [ht, hpa]
    · have ht : ∀ n (hn : n < t.length) m (hm : m < t.length),
          p t[n] = true → p t[m] = true → n = m := by
        intro n hn m hm h1 h2
        have := h (n + 1) (by simpa using Nat.succ_lt_succ hn)
          (m + 1) (by simpa using Nat.succ_lt_succ hm) (by simpa using h1) (by simpa using h2)
        omega
      simpa [hpa] using ih ht

theorem mem_pendingPairs (items : List BatchJobItem) (p : Nat × BatchJobItem) :
    p ∈ pendingPairs items ↔ items[p.1]? = some p.2 ∧ p.2.status = .pending := by
  unfold pendingPairs
  rw [List.mem_filter, List.mem_enum_iff_getElem?]
  simp

theorem mainClaimIdx_pairwise (items : List BatchJobItem) (k : Nat) :
    List.Pairwise (fun a b => a < b) (mainClaimIdx items k) := by
  have h1 : (mainClaimIdx items k).Sublist ((pendingPairs items).map Prod.fst) :=
    List.Sublist.map _ (List.take_sublist _ _)
  have h2 : ((pendingPairs items).map Prod.fst).Sublist (items.enum.map Prod.fst) :=
    List.Sublist.map _ (List.filter_sublist _)
  rw [List.enum_map_fst] at h2
  exact List.Pairwise.sublist (h1.trans h2) (List.pairwise_lt_range _)

theorem mainClaimIdx_nodup (items : List BatchJobItem) (k : Nat) :
    (mainClaimIdx items k).Nodup :=
  (mainClaimIdx_pairwise items k).imp fun h => Nat.ne_of_lt h

theorem mem_mainClaimIdx (items : List BatchJobItem) (k : Nat) (n : Nat)
    (h : n ∈ mainClaimIdx items k) :
    ∃ hlt : n < items.length, items[n].status = .pending := by
  obtain ⟨p, hp, hpn⟩ := List.mem_map.1 h
  subst hpn
  have hp2 : p ∈ pendingPairs items := (List.take_sublist _ _).subset hp
  rw [mem_pendingPairs] at hp2
  obtain ⟨hget, hst⟩ := hp2
  obtain ⟨hlt, hval⟩ := List.getElem?_eq_some.1 hget
  exact ⟨hlt, by rw [hval]; exact hst⟩

theorem mainClaimIdx_ne_nil_workers (items : List BatchJobItem) (k : Nat)
    (h : mainClaimIdx items k ≠ []) : 1 ≤ k := by
  by_contra hk
  have : k = 0 := by omega
  subst this
  exact h (by simp [mainClaimIdx, mainClaimPairs])

theorem mainClaimIdx_nil_pending (items : List BatchJobItem) (k : Nat) (hk : 1 ≤ k)
    (h : mainClaimIdx items k = []) : countStatus items .pending = 0 := by
  unfold mainClaimIdx mainClaimPairs at h
  rw [List.map_eq_nil_iff, List.take_eq_nil_iff] at h
  have hpp : pendingPairs items = [] := by
    rcases h with h | h
    · omega
    · exact h
  rw [countStatus_eq_zero]
  intro it hit hst
  obtain ⟨m, hm, hxm⟩ := List.mem_iff_getElem.1 hit
  have : (m, it) ∈ pendingPairs items := by
    rw [mem_pendingPairs]
    exact ⟨by rw [List.getElem?_eq_getElem hm, hxm], hst⟩
  rw [hpp] at this
  exact absurd this (List.not_mem_nil _)

theorem webClaimPairs_sorted (items : List BatchJobItem) (k : Nat) :
    List.Sorted pairOrder (webClaimPairs items k) :=
  List.Pairwise.sublist (List.take_sublist _ _)
    (List.sorted_insertionSort pairOrder (pendingPairs items))

theorem MainInv.noProcessing {s : MainSys} (hinv : MainInv s)
    (h : ∀ i q, s.pc ≠ .crawlItem i q) :
    countStatus s.items .processing = 0 := by
  rw [countStatus_eq_zero]
  intro it hit hst
  obtain ⟨m, hm, me⟩ := List.mem_iff_getElem.1 hit
  obtain ⟨q, hq⟩ := hinv.proc_only m hm (by rw [me]; exact hst)
  exact h m q hq

/-- MainRound transfers to a state with the same loop position, the same
worker bound, and item statuses that preserve pending and processing rows. -/
theorem mainRound_preserve (s t : MainSys) (hpc : t.pc = s.pc)
    (hw : t.batch.concurrentWorkers = s.batch.concurrentWorkers)
    (hpend : ∀ n (h : n < s.items.length), s.items[n].status = .pending →
      ∃ h2 : n < t.items.length, t.items[n].status = .pending)
    (hproc : ∀ n (h : n < s.items.length), s.items[n].status = .processing →
      ∃ h2 : n < t.items.length, t.items[n].status = .processing)
    (hr : MainRound s) : MainRound t := by
  unfold MainRound at *
  rw [hpc]
  cases hpcs : s.pc with
  | forItems q =>
    rw [hpcs] at hr
    refine ⟨hr.1, fun hq => hw ▸ hr.2.1 hq, fun n hn => ?_⟩
    obtain ⟨h1, h2⟩ := hr.2.2 n hn
    exact hpend n h1 h2
  | crawlItem i q =>
    rw [hpcs] at hr
    obtain ⟨hnd, hwk, ⟨hi, hip⟩, hq⟩ := hr
    refine ⟨hnd, hw ▸ hwk, hproc i hi hip, fun n hn => ?_⟩
    obtain ⟨h1, h2⟩ := hq n hn
    exact hpend n h1 h2
  | loopHead => trivial
  | finalCheck => trivial
  | done => trivial

/-! ### Preservation of the invariant: control routes -/

theorem mainInv_pause (s : MainSys) (h : MainInv s) : MainInv (mainStep s .pause) := by
  unfold mainStep pause_batch
  by_cases hr : s.batch.status = .running
  · rw [if_pos hr]
    exact { total_eq := h.total_eq
            processed_eq := h.processed_eq
            successful_eq := h.successful_eq
            failed_eq := h.failed_eq
            result_none := h.result_none
            round_ok := mainRound_preserve s _ rfl rfl
              (fun n hn hp => ⟨hn, hp⟩) (fun n hn hp => ⟨hn, hp⟩) h.round_ok
            proc_only := h.proc_only
            completed_pc := by intro hc; exact absurd hc (by simp) }
  · rw [if_neg hr]
    exact { total_eq := h.total_eq
            processed_eq := h.processed_eq
            successful_eq := h.successful_eq
            failed_eq := h.failed_eq
            result_none := h.result_none
            round_ok := mainRound_preserve s _ rfl rfl
              (fun n hn hp => ⟨hn, hp⟩) (fun n hn hp => ⟨hn, hp⟩) h.round_ok
            proc_only := h.proc_only
            completed_pc := h.completed_pc }

theorem mainInv_start (s : MainSys) (h : MainInv s) : MainInv (mainStep s .start) := by
  unfold mainStep
  by_cases hd : s.pc = .done
  · rw [if_pos hd]
    unfold start_batch
    by_cases hs : s.batch.status = .pending ∨ s.batch.status = .paused
    · rw [if_pos hs]
      simp only []
      exact { total_eq := h.total_eq
              processed_eq := h.processed_eq
              successful_eq := h.successful_eq
              failed_eq := h.failed_eq
              result_none := h.result_none
              round_ok := by unfold MainRound; trivial
              proc_only := by
                intro n hn hp
                obtain ⟨q, hq⟩ := h.proc_only n hn hp
                rw [hd] at hq
                exact absurd hq (by simp)
              completed_pc := by intro hc; exact absurd hc (by simp) }
    · rw [if_neg hs]
      simp only []
      exact { total_eq := h.total_eq
              processed_eq := h.processed_eq
              successful_eq := h.successful_eq
              failed_eq := h.failed_eq
              result_none := h.result_none
              round_ok := mainRound_preserve s _ rfl rfl
                (fun n hn hp => ⟨hn, hp⟩) (fun n hn hp => ⟨hn, hp⟩) h.round_ok
              proc_only := h.proc_only
              completed_pc := h.completed_pc }
  · rw [if_neg hd]
    exact h

theorem mainInv_retryItem (s : MainSys) (n : Nat) (h : MainInv s) :
    MainInv (mainStep s (.retryItem n)) := by
  unfold mainStep
  cases hget : s.items[n]? with
  | none =>
    simp only [retry_item, hget]
    exact h
  | some it =>
    obtain ⟨hn, heq⟩ := List.getElem?_eq_some.1 hget
    by_cases hst : it.status = .failed
    · simp only [retry_item, hget, if_pos hst]
      have hstn : s.items[n].status = .failed := by rw [heq]; exact hst
      have h1le : 1 ≤ countStatus s.items .failed := one_le_countStatus _ _ n hn hstn
      have hCc : countStatus (updateAt s.items n resetItem) .completed
          = countStatus s.items .completed := by
        rw [countStatus_updateAt _ _ _ _ hn]
        simp [resetItem, hstn]
      have hCf : countStatus (updateAt s.items n resetItem) .failed
          = countStatus s.items .failed - 1 := by
        rw [countStatus_updateAt _ _ _ _ hn]
        simp [resetItem, hstn]
      refine { total_eq := ?_, processed_eq := ?_, successful_eq := ?_, failed_eq := ?_,
               result_none := ?_, round_ok := ?_, proc_only := ?_, completed_pc := ?_ }
      · simpa using h.total_eq
      · have hp := h.processed_eq
        simp only [hCc, hCf]
        omega
      · simp only [hCc]
        exact h.successful_eq
      · have hf := h.failed_eq
        simp only [hCf]
        omega
      · intro m hm hmc
        simp only [length_updateAt] at hm
        have hg := getElem_updateAt s.items n resetItem m hn hm
        simp only [List.get_eq_getElem] at hg
        by_cases hnm : n = m
        · rw [hg, if_pos hnm] at hmc ⊢
          subst hnm
          simp only [resetItem]
          exact h.result_none n hn (by rw [hstn]; simp)
        · rw [hg, if_neg hnm] at hmc ⊢
          exact h.result_none m hm hmc
      · refine mainRound_preserve s _ rfl rfl ?_ ?_ h.round_ok
        · intro m hm hp
          refine ⟨by simpa using hm, ?_⟩
          have hg := getElem_updateAt s.items n resetItem m hn hm
          simp only [List.get_eq_getElem] at hg
          have hnm : ¬ n = m := by
            intro hh
            subst hh
            rw [hp] at hstn
            simp at hstn
          rw [hg, if_neg hnm]
          exact hp
        · intro m hm hp
          refine ⟨by simpa using hm, ?_⟩
          have hg := getElem_updateAt s.items n resetItem m hn hm
          simp only [List.get_eq_getElem] at hg
          have hnm : ¬ n = m := by
            intro hh
            subst hh
            rw [hp] at hstn
            simp at hstn
          rw [hg, if_neg hnm]
          exact hp
      · intro m hm hp
        simp only [length_updateAt] at hm
        have hg := getElem_updateAt s.items n resetItem m hn hm
        simp only [List.get_eq_getElem] at hg
        by_cases hnm : n = m
        · rw [hg, if_pos hnm] at hp
          exact absurd hp (by simp [resetItem])
        · rw [hg, if_neg hnm] at hp
          exact h.proc_only m hm hp
      · intro hc
        by_cases hcf : s.batch.status = .completed ∨ s.batch.status = .failed
        · simp only [if_pos hcf] at hc
          exact absurd hc (by simp)
        · simp only [if_neg hcf] at hc
          exact absurd (Or.inl hc) hcf
    · simp only [retry_item, hget, if_neg hst]
      exact h

theorem mainInv_retryFailed (s : MainSys) (h : MainInv s) :
    MainInv (mainStep s .retryFailed) := by
  unfold mainStep
  by_cases hf0 : countStatus s.items .failed = 0
  · have hstep : (let r := retry_failed_urls s.batch s.items
        { s with batch := r.1, items := r.2.1 }) = s := by
      unfold retry_failed_urls
      simp [hf0]
    rw [hstep]
    exact h
  · simp only [retry_failed_urls, if_neg hf0]
    have hCc : countStatus (s.items.map fun it => if it.status = .failed then resetItem it else it)
        .completed = countStatus s.items .completed := by
      unfold countStatus
      rw [List.countP_map]
      apply List.countP_congr
      intro it _
      by_cases hit : it.status = .failed <;> simp [Function.comp, hit, resetItem]
    have hCf : countStatus (s.items.map fun it => if it.status = .failed then resetItem it else it)
        .failed = 0 := by
      rw [countStatus_eq_zero]
      intro it hit
      obtain ⟨x, _, hx⟩ := List.mem_map.1 hit
      by_cases hxf : x.status = .failed <;>
        simp [hxf, resetItem] at hx <;> rw [← hx] <;> simp [hxf, resetItem]
    refine { total_eq := ?_, processed_eq := ?_, successful_eq := ?_, failed_eq := ?_,
             result_none := ?_, round_ok := ?_, proc_only := ?_, completed_pc := ?_ }
    · simpa using h.total_eq
    · have hp := h.processed_eq
      simp only [hCc, hCf]
      omega
    · simp only [hCc]
      exact h.successful_eq
    · simp only [hCf]
      simp
    · intro m hm hmc
      simp only [List.length_map] at hm
      rw [List.getElem_map] at hmc ⊢
      by_cases hxf : s.items[m].status = .failed
      · simp only [if_pos hxf, resetItem]
        exact h.result_none m hm (by rw [hxf]; simp)
      · simp only [if_neg hxf] at hmc ⊢
        exact h.result_none m hm hmc
    · refine mainRound_preserve s _ rfl rfl ?_ ?_ h.round_ok
      · intro m hm hp
        refine ⟨by simpa using hm, ?_⟩
        rw [List.getElem_map]
        simp [hp, resetItem]
      · intro m hm hp
        refine ⟨by simpa using hm, ?_⟩
        rw [List.getElem_map]
        simp [hp]
    · intro m hm hp
      simp only [List.length_map] at hm
      rw [List.getElem_map] at hp
      by_cases hxf : s.items[m].status = .failed
      · simp [hxf, resetItem] at hp
      · simp only [if_neg hxf] at hp
        exact h.proc_only m hm hp
    · intro hc
      by_cases hcf : s.batch.status = .completed ∨ s.batch.status = .failed
      · simp only [if_pos hcf] at hc
        exact absurd hc (by simp)
      · simp only [if_neg hcf] at hc
        exact absurd (Or.inl hc) hcf

/-! ### Preservation of the invariant: engine steps -/

theorem mainInv_engine (s : MainSys) (o : Outcome) (h : MainInv s) :
    MainInv (mainEngineStep s o) := by
  cases hpc : s.pc with
  | done =>
    simp only [mainEngineStep, hpc]
    exact h
  | finalCheck =>
    have hnop : ∀ m (hm : m < s.items.length), s.items[m].status ≠ .processing := by
      intro m hm hp
      obtain ⟨q, hq⟩ := h.proc_only m hm hp
      rw [hpc] at hq
      exact absurd hq (by simp)
    simp only [mainEngineStep, hpc]
    by_cases hco : s.batch.totalUrls ≤ s.batch.processedUrls ∧ s.batch.status = .running
    · rw [if_pos hco]
      exact { total_eq := h.total_eq, processed_eq := h.processed_eq
              successful_eq := h.successful_eq, failed_eq := h.failed_eq
              result_none := h.result_none
              round_ok := by unfold MainRound; trivial
              proc_only := fun m hm hp => absurd hp (hnop m hm)
              completed_pc := fun _ => Or.inr rfl }
    · rw [if_neg hco]
      exact { total_eq := h.total_eq, processed_eq := h.processed_eq
              successful_eq := h.successful_eq, failed_eq := h.failed_eq
              result_none := h.result_none
              round_ok := by unfold MainRound; trivial
              proc_only := fun m hm hp => absurd hp (hnop m hm)
              completed_pc := fun _ => Or.inr rfl }
  | loopHead =>
    have hnop : ∀ m (hm : m < s.items.length), s.items[m].status ≠ .processing := by
      intro m hm hp
      obtain ⟨q, hq⟩ := h.proc_only m hm hp
      rw [hpc] at hq
      exact absurd hq (by simp)
    simp only [mainEngineStep, hpc]
    by_cases hrun : s.batch.status = .running ∧ (s.totalProcessed : Int) < s.batch.totalUrls
    · rw [if_pos hrun]
      by_cases hcl : (mainClaimIdx s.items s.batch.concurrentWorkers).isEmpty
      · simp only [hcl, if_pos]
        by_cases hpr : countStatus s.items .processing = 0
        · rw [if_pos hpr]
          exact { total_eq := h.total_eq, processed_eq := h.processed_eq
                  successful_eq := h.successful_eq, failed_eq := h.failed_eq
                  result_none := h.result_none
                  round_ok := by unfold MainRound; trivial
                  proc_only := fun m hm hp => absurd hp (hnop m hm)
                  completed_pc := fun _ => Or.inl rfl }
        · rw [if_neg hpr]
          exact { total_eq := h.total_eq, processed_eq := h.processed_eq
                  successful_eq := h.successful_eq, failed_eq := h.failed_eq
                  result_none := h.result_none
                  round_ok := mainRound_preserve s _ (by rw [hpc]) rfl
                    (fun n hn hp => ⟨hn, hp⟩) (fun n hn hp => ⟨hn, hp⟩) h.round_ok
                  proc_only := fun m hm hp => absurd hp (hnop m hm)
                  completed_pc := by
                    intro hc
                    rw [hrun.1] at hc
                    exact absurd hc (by simp) }
      · simp only [hcl, if_neg, Bool.false_eq_true, not_false_iff]
        have hne : mainClaimIdx s.items s.batch.concurrentWorkers ≠ [] := by
          intro hnil
          rw [hnil] at hcl
          simp at hcl
        exact { total_eq := h.total_eq, processed_eq := h.processed_eq
                successful_eq := h.successful_eq, failed_eq := h.failed_eq
                result_none := h.result_none
                round_ok := by
                  unfold MainRound
                  simp only []
                  refine ⟨mainClaimIdx_nodup _ _, fun _ => mainClaimIdx_ne_nil_workers _ _ hne,
                    fun n hn => mem_mainClaimIdx _ _ n hn⟩
                proc_only := fun m hm hp => absurd hp (hnop m hm)
                completed_pc := by
                  intro hc
                  rw [hrun.1] at hc
                  exact absurd hc (by simp) }
    · rw [if_neg hrun]
      exact { total_eq := h.total_eq, processed_eq := h.processed_eq
              successful_eq := h.successful_eq, failed_eq := h.failed_eq
              result_none := h.result_none
              round_ok := by unfold MainRound; trivial
              proc_only := fun m hm hp => absurd hp (hnop m hm)
              completed_pc := fun _ => Or.inl rfl }
  | forItems q =>
    have hr := h.round_ok
    unfold MainRound at hr
    rw [hpc] at hr
    have hnop : ∀ m (hm : m < s.items.length), s.items[m].status ≠ .processing := by
      intro m hm hp
      obtain ⟨q2, hq⟩ := h.proc_only m hm hp
      rw [hpc] at hq
      exact absurd hq (by simp)
    have hcpc : ¬ s.batch.status = .completed := by
      intro hc
      rcases h.completed_pc hc with h1 | h1 <;> rw [hpc] at h1 <;> exact absurd h1 (by simp)
    cases q with
    | nil =>
      simp only [mainEngineStep, hpc]
      by_cases hco : s.batch.totalUrls ≤ s.batch.processedUrls
      · rw [if_pos hco]
        exact { total_eq := h.total_eq, processed_eq := h.processed_eq
                successful_eq := h.successful_eq, failed_eq := h.failed_eq
                result_none := h.result_none
                round_ok := by unfold MainRound; trivial
                proc_only := fun m hm hp => absurd hp (hnop m hm)
                completed_pc := fun _ => Or.inl rfl }
      · rw [if_neg hco]
        exact { total_eq := h.total_eq, processed_eq := h.processed_eq
                successful_eq := h.successful_eq, failed_eq := h.failed_eq
                result_none := h.result_none
                round_ok := by unfold MainRound; trivial
                proc_only := fun m hm hp => absurd hp (hnop m hm)
                completed_pc := fun hc => absurd hc hcpc }
    | cons i q2 =>
      obtain ⟨hnd, hwk, hmem⟩ := hr
      obtain ⟨hi, hip⟩ := hmem i (List.mem_cons_self i q2)
      have hnotin : i ∉ q2 := (List.nodup_cons.1 hnd).1
      simp only [mainEngineStep, hpc]
      have hCc : countStatus (updateAt s.items i (markProcessing s.clock)) .completed
          = countStatus s.items .completed := by
        rw [countStatus_updateAt _ _ _ _ hi]
        simp [markProcessing, hip]
      have hCf : countStatus (updateAt s.items i (markProcessing s.clock)) .failed
          = countStatus s.items .failed := by
        rw [countStatus_updateAt _ _ _ _ hi]
        simp [markProcessing, hip]
      refine { total_eq := ?_, processed_eq := ?_, successful_eq := ?_, failed_eq := ?_,
               result_none := ?_, round_ok := ?_, proc_only := ?_, completed_pc := ?_ }
      · simpa using h.total_eq
      · simp only [hCc, hCf]
        exact h.processed_eq
      · simp only [hCc]
        exact h.successful_eq
      · simp only [hCf]
        exact h.failed_eq
      · intro m hm hmc
        simp only [length_updateAt] at hm
        have hg := getElem_updateAt s.items i (markProcessing s.clock) m hi hm
        simp only [List.get_eq_getElem] at hg
        by_cases him : i = m
        · rw [hg, if_pos him] at hmc ⊢
          subst him
          simp only [markProcessing]
          exact h.result_none i hi (by rw [hip]; simp)
        · rw [hg, if_neg him] at hmc ⊢
          exact h.result_none m hm hmc
      · unfold MainRound
        simp only []
        refine ⟨hnd, hwk (by simp), ?_, ?_⟩
        · refine ⟨by simpa using hi, ?_⟩
          have hg := getElem_updateAt s.items i (markProcessing s.clock) i hi hi
          simp only [List.get_eq_getElem] at hg
          rw [hg]
          simp [markProcessing]
        · intro n hn
          obtain ⟨hnl, hnp⟩ := hmem n (List.mem_cons_of_mem i hn)
          refine ⟨by simpa using hnl, ?_⟩
          have hg := getElem_updateAt s.items i (markProcessing s.clock) n hi hnl
          simp only [List.get_eq_getElem] at hg
          have hin : ¬ i = n := fun hh => hnotin (hh ▸ hn)
          rw [hg, if_neg hin]
          exact hnp
      · intro m hm hp
        simp only [length_updateAt] at hm
        have hg := getElem_updateAt s.items i (markProcessing s.clock) m hi hm
        simp only [List.get_eq_getElem] at hg
        by_cases him : i = m
        · subst him
          exact ⟨q2, rfl⟩
        · rw [hg, if_neg him] at hp
          exact absurd hp (hnop m hm)
      · intro hc
        exact absurd hc hcpc
  | crawlItem i q =>
    have hr := h.round_ok
    unfold MainRound at hr
    rw [hpc] at hr
    obtain ⟨hnd, hwk, ⟨hi, hip⟩, hmem⟩ := hr
    have hnotin : i ∉ q := (List.nodup_cons.1 hnd).1
    have hcpc : ¬ s.batch.status = .completed := by
      intro hc
      rcases h.completed_pc hc with h1 | h1 <;> rw [hpc] at h1 <;> exact absurd h1 (by simp)
    have hponly : ∀ m (hm : m < s.items.length), s.items[m].status = .processing → m = i := by
      intro m hm hp
      obtain ⟨q2, hq⟩ := h.proc_only m hm hp
      rw [hpc] at hq
      injection hq with h1 h2
      exact h1.symm
    -- the three outcomes share the same proof skeleton; the terminal status
    -- and counter differ
    have main :
        ∀ f : BatchJobItem → BatchJobItem,
        (∀ it, (f it).status = .completed ∨ (f it).status = .failed) →
        (∀ it, it.resultId = none → (f it).status ≠ .completed → (f it).resultId = none) →
        ∀ (b2 : BatchJob), b2.status = s.batch.status
          → b2.concurrentWorkers = s.batch.concurrentWorkers
          → b2.totalUrls = s.batch.totalUrls
          → (b2.processedUrls
              = (countStatus (updateAt s.items i f) .completed : Int)
                + (countStatus (updateAt s.items i f) .failed : Int))
          → (b2.successfulUrls = (countStatus (updateAt s.items i f) .completed : Int))
          → (b2.failedUrls = (countStatus (updateAt s.items i f) .failed : Int))
          → ∀ (ck nri tp : Nat),
          MainInv { batch := b2, items := updateAt s.items i f, clock := ck,
                    nextResultId := nri, pc := .forItems q, totalProcessed := tp } := by
      intro f hterm hres b2 hst hwork htot hproc hsucc hfail ck nri tp
      refine { total_eq := ?_, processed_eq := hproc, successful_eq := hsucc,
               failed_eq := hfail, result_none := ?_, round_ok := ?_,
               proc_only := ?_, completed_pc := ?_ }
      · simpa [htot] using h.total_eq
      · intro m hm hmc
        simp only [length_updateAt] at hm
        have hg := getElem_updateAt s.items i f m hi hm
        simp only [List.get_eq_getElem] at hg
        by_cases him : i = m
        · rw [hg, if_pos him] at hmc ⊢
          subst him
          exact hres _ (h.result_none i hi (by rw [hip]; simp)) hmc
        · rw [hg, if_neg him] at hmc ⊢
          exact h.result_none m hm hmc
      · unfold MainRound
        simp only []
        refine ⟨(List.nodup_cons.1 hnd).2, fun _ => hwork ▸ hwk, ?_⟩
        intro n hn
        obtain ⟨hnl, hnp⟩ := hmem n hn
        refine ⟨by simpa using hnl, ?_⟩
        have hg := getElem_updateAt s.items i f n hi hnl
        simp only [List.get_eq_getElem] at hg
        have hin : ¬ i = n := fun hh => hnotin (hh ▸ hn)
        rw [hg, if_neg hin]
        exact hnp
      · intro m hm hp
        simp only [length_updateAt] at hm
        have hg := getElem_updateAt s.items i f m hi hm
        simp only [List.get_eq_getElem] at hg
        by_cases him : i = m
        · rw [hg, if_pos him] at hp
          rcases hterm s.items[i] with ht | ht <;> rw [ht] at hp <;> exact absurd hp (by simp)
        · rw [hg, if_neg him] at hp
          exact absurd (hponly m hm hp) (fun hh => him hh.symm)
      · intro hc
        rw [hst] at hc
        exact absurd hc hcpc
    have hCp : ∀ f : BatchJobItem → BatchJobItem,
        countStatus (updateAt s.items i f) .completed
          = countStatus s.items .completed
            + (if (f s.items[i]).status = .completed then 1 else 0) := by
      intro f
      rw [countStatus_updateAt _ _ _ _ hi]
      simp [hip]
    have hFp : ∀ f : BatchJobItem → BatchJobItem,
        countStatus (updateAt s.items i f) .failed
          = countStatus s.items .failed
            + (if (f s.items[i]).status = .failed then 1 else 0) := by
      intro f
      rw [countStatus_updateAt _ _ _ _ hi]
      simp [hip]
    cases o with
    | success =>
      simp only [mainEngineStep, hpc]
      apply main _ (fun it => by simp) (fun it hni hnc => absurd (by simp) hnc)
      · rfl
      · rfl
      · rfl
      · rw [hCp, hFp]
        have hpe := h.processed_eq
        simp
        omega
      · rw [hCp]
        have hse := h.successful_eq
        simp
        omega
      · rw [hFp]
        have hfe := h.failed_eq
        simp
        omega
    | failure msg =>
      simp only [mainEngineStep, hpc]
      apply main _ (fun it => by simp) (fun it hni hnc => by simpa using hni)
      · rfl
      · rfl
      · rfl
      · rw [hCp, hFp]
        have hpe := h.processed_eq
        simp
        omega
      · rw [hCp]
        have hse := h.successful_eq
        simp
        omega
      · rw [hFp]
        have hfe := h.failed_eq
        simp
        omega
    | saveError msg =>
      simp only [mainEngineStep, hpc]
      apply main _ (fun it => by simp) (fun it hni hnc => by simpa using hni)
      · rfl
      · rfl
      · rfl
      · rw [hCp, hFp]
        have hpe := h.processed_eq
        simp
        omega
      · rw [hCp]
        have hse := h.successful_eq
        simp
        omega
      · rw [hFp]
        have hfe := h.failed_eq
        simp
        omega

/-! ### The invariant on all reachable states -/

theorem mainInv_step (s : MainSys) (a : Act) (h : MainInv s) : MainInv (mainStep s a) := by
  cases a with
  | engine o => exact mainInv_engine s o h
  | start => exact mainInv_start s h
  | pause => exact mainInv_pause s h
  | retryItem n => exact mainInv_retryItem s n h
  | retryFailed => exact mainInv_retryFailed s h

theorem mainInv_run (s : MainSys) (acts : List Act) (h : MainInv s) :
    MainInv (mainRun s acts) := by
  induction acts generalizing s with
  | nil => exact h
  | cons a t ih => exact ih _ (mainInv_step s a h)

theorem create_batch_items_length (urls : List String) :
    (create_batch_items urls).length = urls.length := by
  unfold create_batch_items
  simp

theorem create_batch_items_pending (urls : List String) :
    ∀ it ∈ create_batch_items urls, it.status = .pending := by
  intro it hit
  obtain ⟨p, _, hp⟩ := List.mem_map.1 hit
  rw [← hp]

theorem mainInv_create (urls : List String) (workers : Nat) (scheduleNow : Bool) :
    MainInv (mainCreateSys urls workers scheduleNow) := by
  have hc0 : countStatus (create_batch_items urls) .completed = 0 := by
    rw [countStatus_eq_zero]
    intro it hit
    rw [create_batch_items_pending urls it hit]
    simp
  have hf0 : countStatus (create_batch_items urls) .failed = 0 := by
    rw [countStatus_eq_zero]
    intro it hit
    rw [create_batch_items_pending urls it hit]
    simp
  refine { total_eq := ?_, processed_eq := ?_, successful_eq := ?_, failed_eq := ?_,
           result_none := ?_, round_ok := ?_, proc_only := ?_, completed_pc := ?_ }
  · simp [mainCreateSys, create_batch, create_batch_items_length]
  · simp [mainCreateSys, create_batch, hc0, hf0]
  · simp [mainCreateSys, create_batch, hc0]
  · simp [mainCreateSys, create_batch, hf0]
  · intro n hn _
    simp only [mainCreateSys] at hn ⊢
    unfold create_batch_items at hn ⊢
    rw [List.getElem_map]
  · unfold MainRound
    trivial
  · intro n hn hp
    simp only [mainCreateSys] at hn hp
    have := create_batch_items_pending urls _ (List.getElem_mem hn)
    rw [this] at hp
    exact absurd hp (by simp)
  · intro hc
    simp only [mainCreateSys, create_batch] at hc
    cases scheduleNow <;> simp at hc

theorem mainReachable_inv (s : MainSys) (h : MainReachable s) : MainInv s := by
  obtain ⟨urls, workers, sched, acts, _, rfl⟩ := h
  exact mainInv_run _ _ (mainInv_create urls workers sched)

/-! ### The completion guarantee for workers ≥ 1 -/

theorem workers_engineStep (s : MainSys) (o : Outcome) :
    (mainEngineStep s o).batch.concurrentWorkers = s.batch.concurrentWorkers := by
  cases hpc : s.pc with
  | done => simp only [mainEngineStep, hpc]
  | finalCheck =>
    simp only [mainEngineStep, hpc]
    split_ifs <;> rfl
  | loopHead =>
    simp only [mainEngineStep, hpc]
    split_ifs <;> rfl
  | forItems q =>
    cases q with
    | nil =>
      simp only [mainEngineStep, hpc]
      split_ifs <;> rfl
    | cons a t =>
      simp only [mainEngineStep, hpc]
  | crawlItem i q =>
    cases o
    all_goals simp only [mainEngineStep, hpc]

theorem workers_mainStep (s : MainSys) (a : Act) :
    (mainStep s a).batch.concurrentWorkers = s.batch.concurrentWorkers := by
  cases a with
  | engine o => exact workers_engineStep s o
  | start =>
    unfold mainStep
    by_cases hd : s.pc = .done
    · rw [if_pos hd]
      unfold start_batch
      split_ifs <;> rfl
    · rw [if_neg hd]
  | pause =>
    unfold mainStep pause_batch
    split_ifs <;> rfl
  | retryItem n =>
    unfold mainStep
    cases hget : s.items[n]? with
    | none => simp only [retry_item, hget]
    | some it =>
      simp only [retry_item, hget]
      split_ifs <;> rfl
  | retryFailed =>
    unfold mainStep
    simp only [retry_failed_urls]
    split_ifs <;> rfl

theorem completedOK_step (s : MainSys) (a : Act) (hinv : MainInv s)
    (hw : 1 ≤ s.batch.concurrentWorkers) (h : CompletedOK s) :
    CompletedOK (mainStep s a) := by
  have hle : s.batch.processedUrls ≤ s.batch.totalUrls := by
    have h1 := hinv.processed_eq
    have h2 := hinv.total_eq
    have h3 := countStatus_sum s.items
    omega
  cases a with
  | engine o =>
    show CompletedOK (mainEngineStep s o)
    cases hpc : s.pc with
    | done =>
      simp only [mainEngineStep, hpc]
      exact h
    | finalCheck =>
      simp only [mainEngineStep, hpc]
      split_ifs with hco
      · intro _
        refine ⟨by simp only [completeBatch]; omega, by simp [completeBatch]⟩
      · exact h
    | loopHead =>
      simp only [mainEngineStep, hpc]
      split_ifs with hrun hcl hpr
      · intro _
        have hnil : mainClaimIdx s.items s.batch.concurrentWorkers = [] :=
          List.isEmpty_iff.1 hcl
        have hp0 := mainClaimIdx_nil_pending s.items _ hw hnil
        have h1 := hinv.processed_eq
        have h2 := hinv.total_eq
        have h3 := countStatus_sum s.items
        refine ⟨by simp only [completeBatch]; omega, by simp [completeBatch]⟩
      · exact h
      · exact h
      · exact h
    | forItems q =>
      cases q with
      | nil =>
        simp only [mainEngineStep, hpc]
        split_ifs with hco
        · intro _
          refine ⟨by simp only [completeBatch]; omega, by simp [completeBatch]⟩
        · exact h
      | cons i q2 =>
        simp only [mainEngineStep, hpc]
        intro hc
        exact h hc
    | crawlItem i q =>
      intro hc
      have hpcc : (mainEngineStep s o).batch.status = s.batch.status := by
        simp only [mainEngineStep, hpc]
        cases o <;> rfl
      rw [hpcc] at hc
      rcases hinv.completed_pc hc with h1 | h1 <;> rw [hpc] at h1 <;> exact absurd h1 (by simp)
  | start =>
    simp only [mainStep]
    by_cases hd : s.pc = .done
    · rw [if_pos hd]
      unfold start_batch
      by_cases hs : s.batch.status = .pending ∨ s.batch.status = .paused
      · rw [if_pos hs]
        simp only []
        intro hc
        exact absurd hc (by simp)
      · rw [if_neg hs]
        simp only []
        exact h
    · rw [if_neg hd]
      exact h
  | pause =>
    simp only [mainStep]
    unfold pause_batch
    split_ifs with hr
    · intro hc
      exact absurd hc (by simp)
    · exact h
  | retryItem n =>
    simp only [mainStep]
    cases hget : s.items[n]? with
    | none =>
      simp only [retry_item, hget]
      exact h
    | some it =>
      simp only [retry_item, hget]
      split_ifs with hst hcf
      · intro hc
        have hc2 : BatchStatus.pending = BatchStatus.completed := hc
        simp at hc2
      · intro hc
        have hc2 : s.batch.status = .completed := hc
        exact absurd (Or.inl hc2) hcf
      · exact h
  | retryFailed =>
    simp only [mainStep, retry_failed_urls]
    split_ifs with hf0 hcf
    · exact h
    · intro hc
      have hc2 : BatchStatus.pending = BatchStatus.completed := hc
      simp at hc2
    · intro hc
      have hc2 : s.batch.status = .completed := hc
      exact absurd (Or.inl hc2) hcf

/-- The three facts threaded together along a run started with workers ≥ 1. -/
theorem mainRun_completedOK (s : MainSys) (acts : List Act)
    (h : MainInv s ∧ CompletedOK s ∧ 1 ≤ s.batch.concurrentWorkers) :
    MainInv (mainRun s acts) ∧ CompletedOK (mainRun s acts)
      ∧ 1 ≤ (mainRun s acts).batch.concurrentWorkers := by
  induction acts generalizing s with
  | nil => exact h
  | cons a t ih =>
    refine ih _ ⟨mainInv_step s a h.1, completedOK_step s a h.1 h.2.2 h.2.1, ?_⟩
    rw [workers_mainStep s a]
    exact h.2.2

/-! ### Draining a round: engine-only execution -/

/-- Writing row `n` leaves the status of any other row unchanged. -/
theorem status_updateAt_ne (items : List BatchJobItem) (n : Nat)
    (f : BatchJobItem → BatchJobItem) (m : Nat) (hn : n < items.length)
    (hm : m < items.length) (hnm : ¬ n = m) :
    ∃ hm2 : m < (updateAt items n f).length,
      (updateAt items n f)[m].status = items[m].status := by
  refine ⟨by simpa using hm, ?_⟩
  have hg := getElem_updateAt items n f m hn hm
  simp only [List.get_eq_getElem] at hg
  rw [hg, if_neg hnm]

/-- The status of the written row is whatever the write put there. -/
theorem status_updateAt_self (items : List BatchJobItem) (n : Nat)
    (f : BatchJobItem → BatchJobItem) (hn : n < items.length) :
    ∃ hn2 : n < (updateAt items n f).length,
      (updateAt items n f)[n].status = (f items[n]).status := by
  refine ⟨by simpa using hn, ?_⟩
  have hg := getElem_updateAt items n f n hn hn
  simp only [List.get_eq_getElem] at hg
  rw [hg]
  simp

/-- The written row equals the write applied to the old row. -/
theorem getElem_updateAt_self (items : List BatchJobItem) (n : Nat)
    (f : BatchJobItem → BatchJobItem) (hn : n < items.length) :
    ∃ hn2 : n < (updateAt items n f).length, (updateAt items n f)[n] = f items[n] := by
  refine ⟨by simpa using hn, ?_⟩
  have hg := getElem_updateAt items n f n hn hn
  simp only [List.get_eq_getElem] at hg
  rw [hg]
  simp

/-- After resetting all failed rows, none is failed. -/
theorem countStatus_reset_failed (items : List BatchJobItem) :
    countStatus (items.map fun it => if it.status = .failed then resetItem it else it)
      .failed = 0 := by
  rw [countStatus_eq_zero]
  intro it hit
  obtain ⟨x, _, hx⟩ := List.mem_map.1 hit
  by_cases hxf : x.status = .failed <;>
    simp [hxf, resetItem] at hx <;> rw [← hx] <;> simp [hxf, resetItem]

/-- Writing a terminal status into a row leaves it terminal. -/
theorem updateAt_self_status_terminal (items : List BatchJobItem) (n : Nat)
    (f : BatchJobItem → BatchJobItem) (hn : n < items.length)
    (hf : ∀ it, (f it).status = .completed ∨ (f it).status = .failed) :
    ∃ hn2 : n < (updateAt items n f).length,
      ((updateAt items n f)[n].status = .completed
        ∨ (updateAt items n f)[n].status = .failed) := by
  obtain ⟨h2, he⟩ := status_updateAt_self items n f hn
  exact ⟨h2, by rw [he]; exact hf _⟩

/-- An engine step never changes the status of a terminal (completed or
failed) item: the only item writes target a pending row (the claim marking)
or the processing row being crawled. -/
theorem terminal_stable_step (s : MainSys) (o : Outcome) (hinv : MainInv s) (n : Nat)
    (hn : n < s.items.length)
    (ht : s.items[n].status = .completed ∨ s.items[n].status = .failed) :
    ∃ hn2 : n < (mainEngineStep s o).items.length,
      (mainEngineStep s o).items[n].status = s.items[n].status := by
  cases hpc : s.pc with
  | done =>
    simp only [mainEngineStep, hpc]
    exact ⟨hn, trivial⟩
  | finalCheck =>
    simp only [mainEngineStep, hpc]
    split_ifs <;> exact ⟨hn, rfl⟩
  | loopHead =>
    simp only [mainEngineStep, hpc]
    split_ifs <;> exact ⟨hn, rfl⟩
  | forItems q =>
    cases q with
    | nil =>
      simp only [mainEngineStep, hpc]
      split_ifs <;> exact ⟨hn, rfl⟩
    | cons i q2 =>
      have hr := hinv.round_ok
      unfold MainRound at hr
      rw [hpc] at hr
      obtain ⟨hi, hip⟩ := hr.2.2 i (List.mem_cons_self i q2)
      have hin : ¬ i = n := by
        intro hh
        subst hh
        rcases ht with ht | ht <;> rw [ht] at hip <;> exact absurd hip (by simp)
      simp only [mainEngineStep, hpc]
      exact status_updateAt_ne s.items i _ n hi hn hin
  | crawlItem i q =>
    have hr := hinv.round_ok
    unfold MainRound at hr
    rw [hpc] at hr
    obtain ⟨hi, hip⟩ := hr.2.2.1
    have hin : ¬ i = n := by
      intro hh
      subst hh
      rcases ht with ht | ht <;> rw [ht] at hip <;> exact absurd hip (by simp)
    cases o with
    | success =>
      simp only [mainEngineStep, hpc]
      exact status_updateAt_ne s.items i _ n hi hn hin
    | failure msg =>
      simp only [mainEngineStep, hpc]
      exact status_updateAt_ne s.items i _ n hi hn hin
    | saveError msg =>
      simp only [mainEngineStep, hpc]
      exact status_updateAt_ne s.items i _ n hi hn hin

/-- After marking row `i` (step at `forItems (i :: q)`), the loop is about to
crawl it. -/
theorem engine_mark (s : MainSys) (i : Nat) (q : List Nat) (o : Outcome)
    (hpc : s.pc = .forItems (i :: q)) :
    mainEngineStep s o
      = { s with
          items := updateAt s.items i (markProcessing s.clock)
          clock := s.clock + 1
          pc := .crawlItem i q } := by
  simp only [mainEngineStep, hpc]

/-- Whatever the crawl outcome, the step from `crawlItem` returns to the for
loop with the batch status unchanged. -/
theorem engine_crawl_pc (s : MainSys) (i : Nat) (q : List Nat) (o : Outcome)
    (hpc : s.pc = .crawlItem i q) :
    (mainEngineStep s o).pc = .forItems q
    ∧ (mainEngineStep s o).batch.status = s.batch.status := by
  cases o <;> simp [mainEngineStep, hpc]

/-- Draining the rest of a round while the batch is not running: after
2·|q| + 3 engine steps the loop has returned, no row is left processing, and
terminal rows are untouched. -/
theorem main_drain_forItems : ∀ (q : List Nat) (s : MainSys), MainInv s →
    s.pc = .forItems q → s.batch.status ≠ .running →
    ∀ os : List Outcome, os.length = 2 * q.length + 3 →
      (engineOnly s os).pc = .done
      ∧ countStatus (engineOnly s os).items .processing = 0
      ∧ ∀ n (hn : n < s.items.length),
          (s.items[n].status = .completed ∨ s.items[n].status = .failed) →
          ∃ hn2 : n < (engineOnly s os).items.length,
            (engineOnly s os).items[n].status = s.items[n].status := by
  intro q
  induction q with
  | nil =>
    intro s hinv hpc hnr os hos
    have hos3 : os.length = 3 := by simpa using hos
    obtain ⟨o1, o2, o3, rfl⟩ := List.length_eq_three.1 hos3
    have hcount : countStatus s.items .processing = 0 :=
      hinv.noProcessing (by rw [hpc]; simp)
    by_cases hco : s.batch.totalUrls ≤ s.batch.processedUrls
    · have e1 : mainEngineStep s o1
          = { s with
                batch := completeBatch s.batch s.clock
                clock := s.clock + 1
                pc := .finalCheck } := by
        simp only [mainEngineStep, hpc]
        rw [if_pos hco]
      have e2 : mainEngineStep (mainEngineStep s o1) o2
          = { s with
                batch := completeBatch s.batch s.clock
                clock := s.clock + 1
                pc := .done } := by
        rw [e1]
        simp only [mainEngineStep]
        rw [if_neg (by simp [completeBatch])]
      have e3 : engineOnly s [o1, o2, o3]
          = { s with
                batch := completeBatch s.batch s.clock
                clock := s.clock + 1
                pc := .done } := by
        show mainEngineStep (mainEngineStep (mainEngineStep s o1) o2) o3 = _
        rw [e2]
        simp only [mainEngineStep]
      rw [e3]
      exact ⟨rfl, hcount, fun n hn _ => ⟨hn, rfl⟩⟩
    · have e1 : mainEngineStep s o1 = { s with pc := .loopHead } := by
        simp only [mainEngineStep, hpc]
        rw [if_neg hco]
      have e2 : mainEngineStep (mainEngineStep s o1) o2
          = { s with pc := .finalCheck } := by
        rw [e1]
        simp only [mainEngineStep]
        rw [if_neg (by intro hh; exact hnr hh.1)]
      have e3 : engineOnly s [o1, o2, o3] = { s with pc := .done } := by
        show mainEngineStep (mainEngineStep (mainEngineStep s o1) o2) o3 = _
        rw [e2]
        simp only [mainEngineStep]
        rw [if_neg (by intro hh; exact hnr hh.2)]
      rw [e3]
      exact ⟨rfl, hcount, fun n hn _ => ⟨hn, rfl⟩⟩
  | cons i q2 ih =>
    intro s hinv hpc hnr os hos
    match os with
    | [] => simp at hos
    | [o1] => simp at hos
    | o1 :: o2 :: os2 =>
      have hos2 : os2.length = 2 * q2.length + 3 := by
        simp only [List.length_cons] at hos
        omega
      have heng : engineOnly s (o1 :: o2 :: os2)
          = engineOnly (mainEngineStep (mainEngineStep s o1) o2) os2 := rfl
      set s1 := mainEngineStep s o1 with hs1
      set s2 := mainEngineStep s1 o2 with hs2
      have hinv1 : MainInv s1 := mainInv_engine s o1 hinv
      have hinv2 : MainInv s2 := mainInv_engine s1 o2 hinv1
      have he1 := engine_mark s i q2 o1 hpc
      have hpc1 : s1.pc = .crawlItem i q2 := by rw [hs1, he1]
      have hst1 : s1.batch.status = s.batch.status := by rw [hs1, he1]
      have hcp := engine_crawl_pc s1 i q2 o2 hpc1
      have hpc2 : s2.pc = .forItems q2 := hcp.1
      have hst2 : s2.batch.status = s.batch.status := by rw [← hst1]; exact hcp.2
      have hnr2 : s2.batch.status ≠ .running := by rw [hst2]; exact hnr
      have hih := ih s2 hinv2 hpc2 hnr2 os2 hos2
      rw [heng]
      refine ⟨hih.1, hih.2.1, ?_⟩
      intro n hn ht
      obtain ⟨hn1, he1s⟩ := terminal_stable_step s o1 hinv n hn ht
      obtain ⟨hn2, he2s⟩ := terminal_stable_step s1 o2 hinv1 n hn1 (by rw [he1s]; exact ht)
      obtain ⟨hn3, he3s⟩ := hih.2.2 n hn2 (by rw [he2s, he1s]; exact ht)
      exact ⟨hn3, by rw [he3s, he2s, he1s]⟩

/-- Draining from the crawl point: the current row reaches a terminal state
and the loop exits with nothing left processing. -/
theorem main_drain_crawl (s : MainSys) (i : Nat) (q : List Nat) (hinv : MainInv s)
    (hpc : s.pc = .crawlItem i q) (hnr : s.batch.status ≠ .running)
    (os : List Outcome) (hos : os.length = 2 * q.length + 4) :
    (engineOnly s os).pc = .done
    ∧ countStatus (engineOnly s os).items .processing = 0
    ∧ ∃ hn : i < (engineOnly s os).items.length,
        ((engineOnly s os).items[i].status = .completed
          ∨ (engineOnly s os).items[i].status = .failed) := by
  match os with
  | [] => simp at hos
  | o1 :: os2 =>
    have hos2 : os2.length = 2 * q.length + 3 := by
      simp only [List.length_cons] at hos
      omega
    have heng : engineOnly s (o1 :: os2) = engineOnly (mainEngineStep s o1) os2 := rfl
    set s1 := mainEngineStep s o1 with hs1
    have hinv1 : MainInv s1 := mainInv_engine s o1 hinv
    have hr := hinv.round_ok
    unfold MainRound at hr
    rw [hpc] at hr
    obtain ⟨hi, hip⟩ := hr.2.2.1
    have hcp := engine_crawl_pc s i q o1 hpc
    have hnr1 : s1.batch.status ≠ .running := by rw [hs1, hcp.2]; exact hnr
    have hterm : ∃ hi1 : i < s1.items.length,
        (s1.items[i].status = .completed ∨ s1.items[i].status = .failed) := by
      rw [hs1]
      cases o1 with
      | success =>
        simp only [mainEngineStep, hpc]
        exact updateAt_self_status_terminal s.items i _ hi (fun it => by simp)
      | failure msg =>
        simp only [mainEngineStep, hpc]
        exact updateAt_self_status_terminal s.items i _ hi (fun it => by simp)
      | saveError msg =>
        simp only [mainEngineStep, hpc]
        exact updateAt_self_status_terminal s.items i _ hi (fun it => by simp)
    obtain ⟨hi1, hterm1⟩ := hterm
    have hih := main_drain_forItems q s1 hinv1 hcp.1 hnr1 os2 hos2
    rw [heng]
    refine ⟨hih.1, hih.2.1, ?_⟩
    obtain ⟨hn2, hsame⟩ := hih.2.2 i hi1 hterm1
    exact ⟨hn2, by rw [hsame]; exact hterm1⟩

/-! ## Claim C10: progress_percentage -/

/-- C10 (confirmed): `progress_percentage` never divides by zero — it
returns 0 whenever total_urls ≤ 0, and for a positive total (and the
nonnegative processed counter) it returns the truncation of
(processed/total)*100, i.e. the integer quotient 100*processed/total. -/
theorem progress_percentage_spec (b : BatchJob) :
    (b.totalUrls ≤ 0 → progress_percentage b = 0)
    ∧ (0 < b.totalUrls → 0 ≤ b.processedUrls →
        progress_percentage b = 100 * b.processedUrls / b.totalUrls) := by
  constructor
  · intro h
    simp [progress_percentage, h]
  · intro ht hp
    have hne : ¬ b.totalUrls ≤ 0 := not_le.2 ht
    have hq0 : 0 ≤ ((b.processedUrls : ℚ) / (b.totalUrls : ℚ)) * 100 := by
      apply mul_nonneg
      · exact div_nonneg (by exact_mod_cast hp) (by exact_mod_cast ht.le)
      · norm_num
    have hq : ((b.processedUrls : ℚ) / (b.totalUrls : ℚ)) * 100
        = (((100 * b.processedUrls : ℤ) : ℚ) / ((b.totalUrls.toNat : ℕ) : ℚ)) := by
      have hcast : ((b.totalUrls.toNat : ℕ) : ℚ) = ((b.totalUrls : ℤ) : ℚ) := by
        rw [← Int.cast_natCast]
        exact_mod_cast congrArg (fun z => ((z : ℤ) : ℚ)) (Int.toNat_of_nonneg ht.le)
      rw [hcast]
      push_cast
      ring
    simp only [progress_percentage, if_neg hne, pyInt, if_neg (not_lt.2 hq0)]
    rw [hq, Rat.floor_intCast_div_natCast]
    rw [Int.toNat_of_nonneg ht.le]

/-- Witness: a batch with 1 of 3 URLs processed reports 33 percent. -/
theorem progress_percentage_spec_witness :
    progress_percentage ⟨.running, 3, 3, 1, 1, 0, some 0, none, none⟩ = 33 := by
  have h := (progress_percentage_spec ⟨.running, 3, 3, 1, 1, 0, some 0, none, none⟩).2
    (by norm_num) (by norm_num)
  rw [h]
  decide

/-! ## Claim C4: start preconditions -/

/-- C4 (confirmed): start on a running, completed or failed batch is rejected
with a reported error and leaves the batch record exactly as it was; from
pending or paused it succeeds, sets status running, and stamps started_at
only if it was never set before (so pause/resume cycles keep the original
value); no other field changes. -/
theorem start_batch_spec (b : BatchJob) (now : Nat) :
    ((b.status = .running ∨ b.status = .completed ∨ b.status = .failed) →
      start_batch b now
        = (b, some ("Cannot start batch job in " ++ statusName b.status ++ " status")))
    ∧ ((b.status = .pending ∨ b.status = .paused) →
      start_batch b now
        = ({ b with
              status := .running
              startedAt := if b.startedAt.isSome then b.startedAt else some now }, none)) := by
  cases hb : b.status <;> simp [start_batch, hb]

/-- Witness: starting a freshly created pending batch succeeds and stamps
started_at with the current time. -/
theorem start_batch_spec_witness :
    start_batch (web_create_batch ["https://a.example"] 2) 9
      = ({ web_create_batch ["https://a.example"] 2 with
            status := .running, startedAt := some 9 }, none) := by
  have h := (start_batch_spec (web_create_batch ["https://a.example"] 2) 9).2 (Or.inl rfl)
  simpa using h

/-! ## Claim C8: reachability of the paused status -/

/-- C8 counterexample: the main create route builds the batch directly in
status paused when it is scheduled for later (`main.py:826`), with
started_at still null — the batch has never been running. -/
theorem create_batch_scheduled_paused_counterexample :
    (create_batch ["https://a.example"] 3 false).status = .paused
    ∧ (create_batch ["https://a.example"] 3 false).startedAt = none := by
  decide

/-- C8 (corrected), amended: the pause route moves a batch to paused exactly
from running (and is a reported no-op from any other status), and resume
moves it back to running; but paused is ALSO reachable without ever running:
directly at creation when the main create route is given a schedule other
than now, and, in the cross-platform variant, from completed via the
retry-failed route. -/
theorem paused_reachability_amended :
    (∀ b, b.status = .running → pause_batch b = ({ b with status := .paused }, none))
    ∧ (∀ b, b.status ≠ .running →
        pause_batch b
          = (b, some ("Cannot pause batch job in " ++ statusName b.status ++ " status")))
    ∧ (∀ urls workers, (create_batch urls workers true).status = .pending)
    ∧ (∀ urls workers, (create_batch urls workers false).status = .paused)
    ∧ (∀ b items, b.status = .completed → countStatus items .failed ≠ 0 →
        (web_retry_failed_urls b items).1.status = .paused) := by
  refine ⟨?_, ?_, fun _ _ => rfl, fun _ _ => rfl, ?_⟩
  · intro b hb
    simp [pause_batch, hb]
  · intro b hb
    simp [pause_batch, hb]
  · intro b items hb hf
    simp [web_retry_failed_urls, hf, hb]

/-- Witness: pausing a running batch succeeds; pausing it again is rejected
unchanged. -/
theorem paused_reachability_amended_witness :
    pause_batch ⟨.running, 2, 1, 0, 0, 0, some 3, none, none⟩
      = (⟨.paused, 2, 1, 0, 0, 0, some 3, none, none⟩, none)
    ∧ pause_batch ⟨.paused, 2, 1, 0, 0, 0, some 3, none, none⟩
      = (⟨.paused, 2, 1, 0, 0, 0, some 3, none, none⟩,
          some ("Cannot pause batch job in " ++ statusName .paused ++ " status")) :=
  ⟨paused_reachability_amended.1 _ rfl, paused_reachability_amended.2.1 _ (by decide)⟩

/-! ## Claim C1: claim order -/

/-- C1 counterexample: on the example store of the spec (priorities [5,1,5,3] in
creation order) the cross-platform claim query indeed returns positions
[0,2,3,1], but the claim query of the main engine (`main.py:1100-1104`, no
ORDER BY) returns the pending rows in store order [0,1,2,3], not the claimed
priority order. -/
theorem main_claim_order_counterexample :
    mainClaimIdx prioStore 4 = [0, 1, 2, 3]
    ∧ ¬ mainClaimIdx prioStore 4 = [0, 2, 3, 1]
    ∧ webClaimIdx prioStore 4 = [0, 2, 3, 1] := by
  decide

/-- C1 (corrected), amended: only the cross-platform engine orders its claim
rounds by priority descending then created_at ascending; the query of the main
engine has no ORDER BY and yields pending rows in store order, i.e. strictly
increasing positions (= creation order, priorities ignored). -/
theorem claim_order_amended :
    (∀ items k, List.Sorted pairOrder (webClaimPairs items k))
    ∧ (∀ items k, List.Pairwise (fun a b => a < b) (mainClaimIdx items k)) := by
  constructor
  · intro items k
    exact List.Pairwise.sublist (List.take_sublist _ _)
      (List.sorted_insertionSort pairOrder (pendingPairs items))
  · intro items k
    have h1 : (mainClaimIdx items k).Sublist ((pendingPairs items).map Prod.fst) :=
      List.Sublist.map _ (List.take_sublist _ _)
    have h2 : ((pendingPairs items).map Prod.fst).Sublist (items.enum.map Prod.fst) :=
      List.Sublist.map _ (List.filter_sublist _)
    rw [List.enum_map_fst] at h2
    exact List.Pairwise.sublist (h1.trans h2) (List.pairwise_lt_range _)

/-! ## Claim C2: the counter equation -/

/-- C2 (code bug in the cross-platform variant): `web_app.py:1122-1125`
decrements only failed_urls on retry (main.py:973-974 decrements both
failed_urls and processed_urls). After retrying the failed item of a
1-URL batch, processed_urls = 1 while successful_urls + failed_urls = 0;
and re-running the batch after retry-failed drives processed_urls to 2 with
total_urls = 1, breaking processed_urls ≤ total_urls as well. -/
theorem web_retry_counter_equation_bug :
    (webStep webFailedBatch (.retryItem 0)).batch.processedUrls = 1
    ∧ (webStep webFailedBatch (.retryItem 0)).batch.successfulUrls = 0
    ∧ (webStep webFailedBatch (.retryItem 0)).batch.failedUrls = 0
    ∧ (webRun webFailedBatch
        [.retryFailed, .start, .engine .success, .engine .success]).batch.processedUrls = 2
    ∧ (webRun webFailedBatch
        [.retryFailed, .start, .engine .success, .engine .success]).batch.totalUrls = 1 := by
  decide

/-! ## Claim C3: retry semantics -/

/-- C3 counterexample: the cross-platform retry_item resets the failed item
but leaves the processed_urls of the parent batch at 1 (the claim requires a
decrement to 0) and leaves the completed batch in status completed (the
claim requires pending). -/
theorem web_retry_item_counterexample :
    webFailedBatch.batch.processedUrls = 1
    ∧ webFailedBatch.batch.status = .completed
    ∧ (webStep webFailedBatch (.retryItem 0)).items.map (fun it => it.status) = [.pending]
    ∧ (webStep webFailedBatch (.retryItem 0)).batch.processedUrls = 1
    ∧ (webStep webFailedBatch (.retryItem 0)).batch.status = .completed := by
  decide

/-! ## Claim C5: pause semantics -/

/-- C5 counterexample: in the cross-platform engine, pausing right after a
round of 2 items was claimed leaves both items in status processing forever:
the per-item status re-check (`web_app.py:1346-1352`) abandons them, the
loop exits (pc = done), and they are never moved to a terminal state. -/
theorem web_pause_strands_processing_counterexample :
    webPauseTrace.batch.status = .paused
    ∧ webPauseTrace.pc = .done
    ∧ webPauseTrace.items.map (fun it => it.status)
        = [.processing, .processing, .pending, .pending, .pending] := by
  decide

/-! ## Claim C6: per-item failure isolation -/

/-- C6 counterexample: in the cross-platform engine a result-save error is
NOT isolated to the item — `save_result` sits outside the per-item try
(`web_app.py:1391`), so the exception reaches the outer handler, the whole
batch is marked failed, the item stays in status processing, and no counter
is incremented. -/
theorem web_save_error_aborts_batch_counterexample :
    webSaveErrorTrace.batch.status = .failed
    ∧ webSaveErrorTrace.batch.errorMessage = some "disk full"
    ∧ webSaveErrorTrace.items.map (fun it => it.status) = [.processing]
    ∧ webSaveErrorTrace.batch.processedUrls = 0 := by
  decide

/-! ## Claim C9: the concurrency bound -/

/-- C9 counterexample: the cross-platform claim query limits each round to
concurrent_workers but never subtracts the rows still in status processing
(`web_app.py:1311-1316`), so after an abandoned round is resumed, 4 items of
a workers=2 batch are simultaneously processing. -/
theorem web_concurrency_bound_exceeded_counterexample :
    webOverclaimTrace.batch.concurrentWorkers = 2
    ∧ countStatus webOverclaimTrace.items .processing = 4 := by
  decide

/-! ## Claim C7: completion -/

/-- C7 counterexample: a batch created with concurrent_workers = 0 (the
create form is parsed with a bare `int(...)`, `main.py:771`) is marked
completed by the first loop iteration while its only item is still pending
and processed_urls = 0 ≠ 1 = total_urls: the LIMIT of the claim query is 0, so
"no pending items" and "no processing items" both hold vacuously
(`main.py:1106-1119`). -/
theorem main_zero_workers_completed_counterexample :
    mainZeroWorkersTrace.batch.status = .completed
    ∧ mainZeroWorkersTrace.batch.processedUrls = 0
    ∧ mainZeroWorkersTrace.batch.totalUrls = 1
    ∧ mainZeroWorkersTrace.items.map (fun it => it.status) = [.pending] := by
  decide

/-- C7 (corrected), amended: for every main batch created with
concurrent_workers ≥ 1 (a workers = 0 batch is completed with its items
still pending — see the counterexample), a batch observed in status
completed has processed_urls = total_urls, a stamped completed_at, and no
item left pending or processing; and when the loop head sees no pending
rows while rows are still processing it leaves the store untouched and
re-polls (sleeps) instead of completing. -/
theorem batch_completion_amended :
    (∀ s, MainReachableW s → s.batch.status = .completed →
      s.batch.processedUrls = s.batch.totalUrls
      ∧ s.batch.completedAt.isSome = true
      ∧ countStatus s.items .pending = 0
      ∧ countStatus s.items .processing = 0)
    ∧ (∀ s o, s.pc = .loopHead → s.batch.status = .running →
        (s.totalProcessed : Int) < s.batch.totalUrls →
        pendingPairs s.items = [] → countStatus s.items .processing ≠ 0 →
        mainEngineStep s o = { s with clock := s.clock + 1 }) := by
  constructor
  · intro s hs hc
    obtain ⟨urls, workers, sched, acts, hne, hw, rfl⟩ := hs
    have hbase : MainInv (mainCreateSys urls workers sched)
        ∧ CompletedOK (mainCreateSys urls workers sched)
        ∧ 1 ≤ (mainCreateSys urls workers sched).batch.concurrentWorkers := by
      refine ⟨mainInv_create urls workers sched, ?_, ?_⟩
      · intro hcc
        exfalso
        simp only [mainCreateSys, create_batch] at hcc
        cases sched <;> simp at hcc
      · simpa [mainCreateSys, create_batch] using hw
    obtain ⟨hinv, hok, _⟩ := mainRun_completedOK _ acts hbase
    obtain ⟨h1, h2⟩ := hok hc
    have hpe := hinv.processed_eq
    have hte := hinv.total_eq
    have hsum := countStatus_sum (mainRun (mainCreateSys urls workers sched) acts).items
    exact ⟨h1, h2, by omega, by omega⟩
  · intro s o hpc hrun hlt hproc0 hproc
    have hcl : mainClaimIdx s.items s.batch.concurrentWorkers = [] := by
      unfold mainClaimIdx mainClaimPairs
      rw [hproc0]
      simp
    simp [mainEngineStep, hpc, hcl, hrun, hlt, hproc]

/-- Witness: the mixed success/failure 2-URL batch reaches completed with
processed = total and no pending/processing items. -/
theorem batch_completion_amended_witness :
    mainMixedTrace.batch.processedUrls = mainMixedTrace.batch.totalUrls
    ∧ countStatus mainMixedTrace.items .pending = 0
    ∧ countStatus mainMixedTrace.items .processing = 0 := by
  have h := batch_completion_amended.1 mainMixedTrace
    ⟨["https://a.example", "https://b.example"], 1, true,
      [.start, .engine .success, .engine .success, .engine (.failure "timeout"),
       .engine .success, .engine .success, .engine .success, .engine .success,
       .engine .success], by simp, le_refl 1, rfl⟩ (by decide)
  exact ⟨h.1, h.2.2.1, h.2.2.2⟩

/-- C5 (corrected), amended: in the main engine, once the batch is no longer
running the loop head starts no new claim round (it falls through to the
final check, touching nothing); a loop paused mid-round still drives the
current round to the end — after 2·|queue| + 4 engine steps the loop has
exited, the row being crawled is terminal, and no row is left in status
processing. (The cross-platform engine instead abandons claimed rows in
status processing — see the counterexample.) -/
theorem main_pause_semantics_amended :
    (∀ s o, s.pc = .loopHead → s.batch.status ≠ .running →
      (mainEngineStep s o).items = s.items
      ∧ (mainEngineStep s o).batch = s.batch
      ∧ (mainEngineStep s o).pc = .finalCheck)
    ∧ (∀ s i q, MainInv s → s.pc = .crawlItem i q → s.batch.status = .paused →
        ∀ os : List Outcome, os.length = 2 * q.length + 4 →
          (engineOnly s os).pc = .done
          ∧ countStatus (engineOnly s os).items .processing = 0
          ∧ ∃ hn : i < (engineOnly s os).items.length,
              ((engineOnly s os).items[i].status = .completed
                ∨ (engineOnly s os).items[i].status = .failed)) := by
  constructor
  · intro s o hpc hnr
    have he : mainEngineStep s o = { s with pc := .finalCheck } := by
      simp only [mainEngineStep, hpc]
      rw [if_neg (by intro hh; exact hnr hh.1)]
    rw [he]
    exact ⟨rfl, rfl, rfl⟩
  · intro s i q hinv hpc hps os hos
    exact main_drain_crawl s i q hinv hpc (by rw [hps]; simp) os hos

/-- Witness: the concrete paused-mid-round batch drains to done with no
processing rows left. -/
theorem main_pause_semantics_amended_witness :
    (engineOnly mainPausedMidRound
      [.success, .success, .success, .success, .success, .success]).pc = .done
    ∧ countStatus (engineOnly mainPausedMidRound
        [.success, .success, .success, .success, .success, .success]).items
        .processing = 0 := by
  have h := main_pause_semantics_amended.2 mainPausedMidRound 0 [1]
    (mainReachable_inv _ ⟨["https://a.example", "https://b.example"], 2, true,
      [.start, .engine .success, .engine .success, .pause], by simp, rfl⟩)
    (by decide) (by decide)
    [.success, .success, .success, .success, .success, .success] (by decide)
  exact ⟨h.1, h.2.1⟩

/-- C6 (corrected), amended: in the main engine any per-item exception —
including a result-save error, since save_result is inside the per-item try
(`main.py:1146`) — marks the item failed with the JSON error message (never
empty, even for an empty exception text), increments processed_urls and
failed_urls, leaves the batch status untouched, and the loop continues with
the rest of the round; the mixed 2-URL batch completes with 1 success and 1
failure. (In the cross-platform engine a save error aborts the whole batch —
see the counterexample.) -/
theorem per_item_failure_isolation_amended :
    (∀ msg, main_item_error_message msg ≠ "")
    ∧ (∀ s i q msg (_hpc : s.pc = .crawlItem i q) (hi : i < s.items.length),
        (mainEngineStep s (.failure msg)).batch.status = s.batch.status
        ∧ (mainEngineStep s (.failure msg)).pc = .forItems q
        ∧ (mainEngineStep s (.failure msg)).batch.processedUrls
            = s.batch.processedUrls + 1
        ∧ (mainEngineStep s (.failure msg)).batch.failedUrls = s.batch.failedUrls + 1
        ∧ mainEngineStep s (.saveError msg) = mainEngineStep s (.failure msg)
        ∧ ∃ hi2 : i < (mainEngineStep s (.failure msg)).items.length,
            (mainEngineStep s (.failure msg)).items[i]
              = { s.items[i] with
                    status := .failed
                    errorMessage := some (main_item_error_message msg)
                    completedAt := some s.clock })
    ∧ (mainMixedTrace.batch.status = .completed
        ∧ mainMixedTrace.batch.successfulUrls = 1
        ∧ mainMixedTrace.batch.failedUrls = 1
        ∧ mainMixedTrace.items.map (fun it => it.status) = [.failed, .completed]
        ∧ (mainMixedTrace.items.map fun it => it.errorMessage)
            = [some (main_item_error_message "timeout"), none]) := by
  refine ⟨?_, ?_, by decide⟩
  · intro msg h
    have h2 := congrArg String.length h
    unfold main_item_error_message at h2
    rw [String.length_append, String.length_append] at h2
    have h3 : 1 ≤ ("\x7b\"resolved\": false, \"exception\": \x7b\"message\": \""
        : String).length := by decide
    rw [show ("" : String).length = 0 from rfl] at h2
    omega
  · intro s i q msg hpc hi
    refine ⟨?_, ?_, ?_, ?_, ?_, ?_⟩
    · simp [mainEngineStep, hpc]
    · simp [mainEngineStep, hpc]
    · simp [mainEngineStep, hpc]
    · simp [mainEngineStep, hpc]
    · simp [mainEngineStep, hpc]
    · simp only [mainEngineStep, hpc]
      exact getElem_updateAt_self s.items i _ hi

/-- Witness: a concrete failing crawl increments failed_urls and the error
string is nonempty even for an empty exception message. -/
theorem per_item_failure_isolation_amended_witness :
    (mainEngineStep (mainRun (mainCreateSys ["https://a.example"] 1 true)
        [.start, .engine .success, .engine .success]) (.failure "boom")).batch.failedUrls
      = (mainRun (mainCreateSys ["https://a.example"] 1 true)
        [.start, .engine .success, .engine .success]).batch.failedUrls + 1
    ∧ main_item_error_message "" ≠ "" := by
  have h := per_item_failure_isolation_amended
  exact ⟨(h.2.1 _ 0 [] "boom" (by decide) (by decide)).2.2.2.1, h.1 ""⟩

/-- C9 (corrected), amended: both claim queries return at most
concurrent_workers rows per round, and the main engine (with a single live
loop) keeps at most one row processing at any instant — in particular never
more than concurrent_workers. The cross-platform engine can exceed the bound
after a resumed interrupted round — see the counterexample. -/
theorem concurrency_bound_amended :
    (∀ items k, (mainClaimPairs items k).length ≤ k ∧ (webClaimPairs items k).length ≤ k)
    ∧ (∀ s, MainReachable s →
        countStatus s.items .processing ≤ 1
        ∧ countStatus s.items .processing ≤ s.batch.concurrentWorkers) := by
  constructor
  · intro items k
    exact ⟨List.length_take_le _ _, List.length_take_le _ _⟩
  · intro s hs
    have hinv := mainReachable_inv s hs
    have hle1 : countStatus s.items .processing ≤ 1 := by
      unfold countStatus
      apply countP_le_one_of_unique
      intro n hn m hm h1 h2
      have h1p : s.items[n].status = .processing := by simpa using h1
      have h2p : s.items[m].status = .processing := by simpa using h2
      obtain ⟨q1, e1⟩ := hinv.proc_only n hn h1p
      obtain ⟨q2, e2⟩ := hinv.proc_only m hm h2p
      rw [e1] at e2
      have e3 : n = m ∧ q1 = q2 := by simpa using e2
      exact e3.1
    refine ⟨hle1, ?_⟩
    by_cases h0 : countStatus s.items .processing = 0
    · omega
    · have hpos : 0 < countStatus s.items .processing := Nat.pos_of_ne_zero h0
      unfold countStatus at hpos
      rw [List.countP_pos_iff] at hpos
      obtain ⟨it, hit, hb⟩ := hpos
      obtain ⟨n, hn, hni⟩ := List.mem_iff_getElem.1 hit
      have hsp : s.items[n].status = .processing := by rw [hni]; simpa using hb
      obtain ⟨q, hq⟩ := hinv.proc_only n hn hsp
      have hr := hinv.round_ok
      unfold MainRound at hr
      rw [hq] at hr
      have hwk := hr.2.1
      omega

/-- Witness: the paused-mid-round main batch has one processing row, within
its workers = 2 bound. -/
theorem concurrency_bound_amended_witness :
    countStatus mainPausedMidRound.items .processing ≤ 1
    ∧ countStatus mainPausedMidRound.items .processing
        ≤ mainPausedMidRound.batch.concurrentWorkers :=
  concurrency_bound_amended.2 mainPausedMidRound
    ⟨["https://a.example", "https://b.example"], 2, true,
      [.start, .engine .success, .engine .success, .pause], by simp, rfl⟩

/-- C3 (corrected), amended: in the main engine, a failed item never carries
a result reference (so the reset item has a null result reference even
though no retry handler clears result_id), retry_item on a failed item
resets it to pending with null error/timestamps and decrements both
failed_urls and processed_urls by one, moving a completed or failed batch
back to pending; retry_item on a non-failed item is a reported no-op;
retry_failed_urls resets every failed item (failed_urls to 0, processed_urls
down by the number of failed items, batch back to pending) and is a
reported no-op when no item is failed. (The cross-platform handlers leave
processed_urls unchanged and do not reset the batch to pending — see the
counterexample.) -/
theorem retry_reset_amended :
    (∀ s, MainReachable s → ∀ n (h : n < s.items.length),
        s.items[n].status = .failed → s.items[n].resultId = none)
    ∧ (∀ b items n (hn : n < items.length), items[n].status = .failed →
        (retry_item b items n).2.2 = none
        ∧ (retry_item b items n).1.failedUrls = b.failedUrls - 1
        ∧ (retry_item b items n).1.processedUrls = b.processedUrls - 1
        ∧ (retry_item b items n).1.status
            = (if b.status = .completed ∨ b.status = .failed then .pending else b.status)
        ∧ ∃ hn2 : n < (retry_item b items n).2.1.length,
            (retry_item b items n).2.1[n]
              = { items[n] with
                    status := .pending
                    errorMessage := none
                    startedAt := none
                    completedAt := none })
    ∧ (∀ b items n it, items[n]? = some it → it.status ≠ .failed →
        retry_item b items n = (b, items, some "Can only retry failed items"))
    ∧ (∀ b items, countStatus items .failed ≠ 0 →
        (retry_failed_urls b items).2.2 = none
        ∧ (retry_failed_urls b items).1.failedUrls = 0
        ∧ (retry_failed_urls b items).1.processedUrls
            = b.processedUrls - (countStatus items .failed : Int)
        ∧ (retry_failed_urls b items).1.status
            = (if b.status = .completed ∨ b.status = .failed then .pending else b.status)
        ∧ countStatus (retry_failed_urls b items).2.1 .failed = 0)
    ∧ (∀ b items, countStatus items .failed = 0 →
        retry_failed_urls b items = (b, items, some "No failed items to retry")) := by
  refine ⟨?_, ?_, ?_, ?_, ?_⟩
  · intro s hs n h hf
    exact (mainReachable_inv s hs).result_none n h (by rw [hf]; simp)
  · intro b items n hn hf
    have hget : items[n]? = some items[n] := List.getElem?_eq_getElem hn
    refine ⟨?_, ?_, ?_, ?_, ?_⟩
    · simp [retry_item, hget, hf]
    · simp [retry_item, hget, hf]
    · simp [retry_item, hget, hf]
    · simp [retry_item, hget, hf]
    · simp only [retry_item, hget, if_pos hf]
      exact getElem_updateAt_self items n resetItem hn
  · intro b items n it hget hnf
    simp [retry_item, hget, hnf]
  · intro b items hf
    refine ⟨?_, ?_, ?_, ?_, ?_⟩
    · simp [retry_failed_urls, hf]
    · simp [retry_failed_urls, hf]
    · simp [retry_failed_urls, hf]
    · simp [retry_failed_urls, hf]
    · simp only [retry_failed_urls, if_neg hf]
      exact countStatus_reset_failed items
  · intro b items hf
    simp [retry_failed_urls, hf]

/-- Witness: retrying the failed item of the completed mixed batch
decrements both counters. -/
theorem retry_reset_amended_witness :
    (retry_item mainMixedTrace.batch mainMixedTrace.items 0).1.failedUrls
      = mainMixedTrace.batch.failedUrls - 1
    ∧ (retry_item mainMixedTrace.batch mainMixedTrace.items 0).1.processedUrls
      = mainMixedTrace.batch.processedUrls - 1 := by
  have h := retry_reset_amended.2.1 mainMixedTrace.batch mainMixedTrace.items 0
    (by decide) (by decide)
  exact ⟨h.2.1, h.2.2.1⟩

end EasyCrawl
